import Mathlib

/-!
Verification of the coordinate-ascent variational optimizer of the vLGP
repository (src/optimization.py, with the alternative implementation in
src/vb.py), against its natural-language specification.

Modelling conventions.
* Finite IEEE doubles are rationals; the shallow embedding works over `ℚ`
  in exact arithmetic everywhere the source performs plain arithmetic.
* Library calls that leave exact rational arithmetic (`np.exp`,
  `scipy.linalg.solve`, `linalg.norm`, `linalg.cholesky`-based Woodbury
  factorizations, `sqexpcov`, the SVD pseudo-inverse, `slogdet`) are
  modelled as explicit function parameters gathered in an `Ops` record:
  each is a deterministic function, exactly as the float routine is, and
  `scipy.linalg.solve` returns `Option` so that `none` models the raised
  `LinAlgError`.  Theorems about control flow hold for every
  instantiation of these parameters.
* The possibility that a float computation produces NaN or infinities is
  modelled where the source tests for it: the lower-bound value is an
  `Option ℚ` (`none` models NaN, matching `np.isnan`), and the dedicated
  `FVal` type below gives a full NaN/±Inf-aware model for the `saferate`
  functions, whose numerical policy is exactly about non-finite values.
-/

namespace VLGP

/-! ## IEEE-style value model for the rate computations

`FVal` models an IEEE double qualitatively: a finite value (an exact
rational), positive or negative infinity, or NaN.  `optimization.saferate`
and `vb.saferate` are embedded over this type. -/

inductive FVal where
  | fv : ℚ → FVal
  | inf : FVal
  | ninf : FVal
  | nan : FVal
  deriving DecidableEq, Repr

/-- IEEE addition on `FVal`: NaN propagates, opposite infinities give NaN.
Finite addition is modelled exactly (finite overflow is not modelled; the
overflow relevant to the rate claims is the one inside `exp`). -/
def FVal.add : FVal → FVal → FVal
  | nan, _ => nan
  | _, nan => nan
  | inf, ninf => nan
  | ninf, inf => nan
  | inf, _ => inf
  | _, inf => inf
  | ninf, _ => ninf
  | _, ninf => ninf
  | fv a, fv b => fv (a + b)

/-- IEEE multiplication on `FVal`: NaN propagates, `0 * ±Inf = NaN`. -/
def FVal.mul : FVal → FVal → FVal
  | nan, _ => nan
  | _, nan => nan
  | inf, inf => inf
  | inf, ninf => ninf
  | ninf, inf => ninf
  | ninf, ninf => inf
  | inf, fv b => if b = 0 then nan else if 0 < b then inf else ninf
  | fv a, inf => if a = 0 then nan else if 0 < a then inf else ninf
  | ninf, fv b => if b = 0 then nan else if 0 < b then ninf else inf
  | fv a, ninf => if a = 0 then nan else if 0 < a then ninf else inf
  | fv a, fv b => fv (a * b)

/-- IEEE comparison `a < b` on `FVal`: any comparison with NaN is false. -/
def FVal.flt : FVal → FVal → Bool
  | fv a, fv b => a < b
  | fv _, inf => true
  | ninf, fv _ => true
  | ninf, inf => true
  | _, _ => false

/-- Largest finite IEEE double, `(2^53 - 1) * 2^971`. -/
def maxFloat : ℚ := (2 ^ 53 - 1) * 2 ^ 971

/-- Machine epsilon of IEEE doubles, `np.finfo(float).eps = 2^-52`. -/
def epsMach : ℚ := 1 / 2 ^ 52

/-- Model of `np.nan_to_num`: NaN becomes 0, `±Inf` become `±maxFloat`. -/
def nanToNum : FVal → FVal
  | FVal.nan => FVal.fv 0
  | FVal.inf => FVal.fv maxFloat
  | FVal.ninf => FVal.fv (-maxFloat)
  | FVal.fv q => FVal.fv q

/-- Ordered sum of a finite family of `FVal`s (models `np.sum`). -/
def fsum {n : ℕ} (f : Fin n → FVal) : FVal :=
  (List.ofFn f).foldr FVal.add (FVal.fv 0)

/-- Dot product over `FVal` (models `np.dot` of two vectors). -/
def fdot {n : ℕ} (u v : Fin n → FVal) : FVal :=
  fsum (fun i => (u i).mul (v i))

/-- Range property of IEEE `exp`: it returns NaN (on NaN input), `+Inf`
(overflow), or a non-negative finite value; it never returns `-Inf` or a
negative number.  Every theorem about the rate models quantifies over an
arbitrary `exp` with this property. -/
def ExpRange (fexp : FVal → FVal) : Prop :=
  ∀ x, fexp x = FVal.nan ∨ fexp x = FVal.inf ∨ ∃ q, 0 ≤ q ∧ fexp x = FVal.fv q

/-- Concrete instance of the `exp` model, with the IEEE double range
behaviour at the extremes (underflow to exactly 0 below -746, overflow to
`+Inf` above 710); the in-range value is a positive stand-in, since no
claim depends on the transcendental value itself. -/
def fexpModel : FVal → FVal
  | FVal.nan => FVal.nan
  | FVal.inf => FVal.inf
  | FVal.ninf => FVal.fv 0
  | FVal.fv q => if q < -746 then FVal.fv 0 else if 710 < q then FVal.inf else FVal.fv 1

/-- The log-rate of `saferate` (optimization.py line 25, vb.py line 307):
`regressor[t,:]·beta[:,n] + post_mean[t,:]·alpha[:,n]
 + 0.5 * Σ_l alpha[l,n]^2 * post_cov[l,t,t]`. -/
def lograteF {T N L K : ℕ} (t : Fin T) (n : Fin N)
    (regressor : Fin T → Fin K → FVal) (post_mean : Fin T → Fin L → FVal)
    (post_cov : Fin L → Fin T → Fin T → FVal)
    (beta : Fin K → Fin N → FVal) (alpha : Fin L → Fin N → FVal) : FVal :=
  ((fdot (fun k => regressor t k) (fun k => beta k n)).add
      (fdot (fun l => post_mean t l) (fun l => alpha l n))).add
    ((FVal.fv (1 / 2)).mul
      (fsum (fun l => ((alpha l n).mul (alpha l n)).mul (post_cov l t t))))

/-- Embedding of `saferate`, src/optimization.py lines 24-28:
`rate = np.nan_to_num(np.exp(lograte)); return rate if rate > 0 else eps`. -/
def saferate {T N L K : ℕ} (fexp : FVal → FVal) (t : Fin T) (n : Fin N)
    (regressor : Fin T → Fin K → FVal) (post_mean : Fin T → Fin L → FVal)
    (post_cov : Fin L → Fin T → Fin T → FVal)
    (beta : Fin K → Fin N → FVal) (alpha : Fin L → Fin N → FVal) : FVal :=
  let rate := nanToNum (fexp (lograteF t n regressor post_mean post_cov beta alpha))
  if FVal.flt (FVal.fv 0) rate then rate else FVal.fv epsMach

/-- Embedding of `saferate`, src/vb.py lines 306-308: identical log-rate, but the
result is only `np.nan_to_num(np.exp(lograte))`, with no positive floor. -/
def saferateVB {T N L K : ℕ} (fexp : FVal → FVal) (t : Fin T) (n : Fin N)
    (regressor : Fin T → Fin K → FVal) (post_mean : Fin T → Fin L → FVal)
    (post_cov : Fin L → Fin T → Fin T → FVal)
    (beta : Fin K → Fin N → FVal) (alpha : Fin L → Fin N → FVal) : FVal :=
  nanToNum (fexp (lograteF t n regressor post_mean post_cov beta alpha))

/-! ## Control-dictionary model (C10)

src/optimization.py lines 65-68 define `default_control` with key
`maxiter`; `variational` (lines 114-118) reads the key `max iteration`
first.  A Python dict read of a missing key raises `KeyError`, modelled
here by `Except`. -/

/-- Value of a control option (the dict mixes numbers and booleans). -/
inductive CVal where
  | num : ℚ → CVal
  | flag : Bool → CVal
  deriving DecidableEq, Repr

/-- Embedding of `default_control`, src/optimization.py lines 65-68. -/
def default_control : List (String × CVal) :=
  [("maxiter", CVal.num 200),
   ("fixed-point iteration", CVal.num 3),
   ("tol", CVal.num (1 / 10000)),
   ("verbose", CVal.flag false)]

/-- Python dict subscript: the value, or a `KeyError` carrying the key. -/
def dictGet (d : List (String × CVal)) (k : String) : Except String CVal :=
  match d.find? (fun p => p.1 = k) with
  | some p => Except.ok p.2
  | none => Except.error k

/-- The four control reads at the top of `variational`
(src/optimization.py lines 114-118), in source order; the first failing
read raises. -/
def readControls (control : List (String × CVal)) :
    Except String (CVal × CVal × CVal × CVal) := do
  let m ← dictGet control "max iteration"
  let f ← dictGet control "fixed-point iteration"
  let t ← dictGet control "tol"
  let v ← dictGet control "verbose"
  return (m, f, t, v)

/-- Entry of `variational` as far as the control dictionary is concerned:
the four control reads happen before any optimization work, so the whole
call is the control phase followed by the fit, abstracted as `runFit`. -/
def variationalEntry {α : Type} (control : List (String × CVal))
    (runFit : CVal × CVal × CVal × CVal → α) : Except String α :=
  (readControls control).map runFit

/-! ## Rational linear algebra helpers (exact models of the numpy calls
that stay within rational arithmetic) -/

/-- Dot product `np.dot` of two vectors. -/
def dotv {n : ℕ} (u v : Fin n → ℚ) : ℚ := ∑ i, u i * v i

/-- Matrix-vector product `np.dot(A, v)`. -/
def mvMul {m n : ℕ} (A : Fin m → Fin n → ℚ) (v : Fin n → ℚ) : Fin m → ℚ :=
  fun i => dotv (A i) v

/-- Value of `np.trace(np.dot(A, B))` for square `A, B`. -/
def traceMul {n : ℕ} (A B : Fin n → Fin n → ℚ) : ℚ :=
  ∑ i, ∑ k, A i k * B k i

/-- Infinity norm `linalg.norm(v, ord=np.inf)`: the largest absolute entry. -/
def infNorm {n : ℕ} (v : Fin n → ℚ) : ℚ :=
  (List.ofFn fun i => |v i|).foldr max 0

/-- Largest absolute entry of the difference of two matrices,
`np.max(np.abs(A - B))`. -/
def maxAbsDiff {m n : ℕ} (A B : Fin m → Fin n → ℚ) : ℚ :=
  (List.ofFn fun i => (List.ofFn fun j => |A i j - B i j|).foldr max 0).foldr max 0

/-- Largest absolute entry of the difference of two (L,T,T) tensors. -/
def maxAbsDiff3 {a m n : ℕ} (A B : Fin a → Fin m → Fin n → ℚ) : ℚ :=
  (List.ofFn fun l => maxAbsDiff (A l) (B l)).foldr max 0

/-! ## The optimizer model (src/optimization.py, `variational`)

Dimensions: `T` time bins, `N` channels, `L` latents, `K` regressor
columns (`1 + p*N` in the source). -/

/-- Arrays that `variational` never mutates (the source write-protects
`spike`, `prior_mean` and `regressor`, lines 152-158). -/
structure Ctx (T N L K : ℕ) where
  spike : Fin T → Fin N → ℚ
  regressor : Fin T → Fin K → ℚ
  prior_mean : Fin T → Fin L → ℚ
  normofalpha : ℚ

/-- The mutable optimizer state.  `stepsize_alpha` is indexed by latent:
the source allocates it with length `N` (line 203) but only ever reads and
writes indices `l < L` (lines 258-277), so for the supported shapes
(`L ≤ N`) the two are equivalent.  `post_inv` (line 168) is initialized
and never read again, so it is omitted.  The local variable `w` of the
posterior-mean and posterior-covariance loops shadows the hyperparameter
array `w` of line 131; the state field `what` models the hyperparameter
array (see `hyperStep` for the consequences of the shadowing). -/
structure St (T N L K : ℕ) where
  beta : Fin K → Fin N → ℚ
  alpha : Fin L → Fin N → ℚ
  post_mean : Fin T → Fin L → ℚ
  post_cov : Fin L → Fin T → Fin T → ℚ
  prior_cov : Fin L → Fin T → Fin T → ℚ
  prior_inv : Fin L → Fin T → Fin T → ℚ
  variance : Fin L → ℚ
  what : Fin L → ℚ
  rate : Fin T → Fin N → ℚ
  stepsize_beta : Fin N → ℚ
  stepsize_alpha : Fin L → ℚ
  stepsize_post_mean : Fin L → ℚ
  stepsize_w : Fin L → ℚ
  deriving DecidableEq

/-- The library routines the optimizer calls that leave exact rational
arithmetic, gathered as explicit deterministic functions (see the header
comment).  `solveB`/`solveA` model `scipy.linalg.solve`, with `none` for a
raised `LinAlgError`; `fexp` models `np.exp` as evaluated in floats
inside `saferate` (composed with its NaN replacement, so a total
function); `normE` models `linalg.norm`; `hinvO` models the
Woodbury/Cholesky computation of lines 288-294 producing the effective
inverse Hessian; `lstsqO` models `linalg.lstsq(hinv, delta)` of line 308;
`vUpd` models the posterior-covariance Woodbury update of lines 325-332;
`sqexpO w v` models `sqexpcov(T, w, v)`; `pinvO` models the SVD-based
pseudo-inverse of lines 144-146 and 361-362; `lbf` models `lowerbound`
(lines 31-62) evaluated in floats, with `none` for a NaN result;
`gradW` models the hyperparameter gradient expression of lines 352-355
(whose value depends on the shadowed locals `w` and `bmat`). -/
structure Ops (T N L K : ℕ) where
  solveB : (Fin K → Fin K → ℚ) → (Fin K → ℚ) → Option (Fin K → ℚ)
  solveA : (Fin N → Fin N → ℚ) → (Fin N → ℚ) → Option (Fin N → ℚ)
  fexp : ℚ → ℚ
  normE : {n : ℕ} → (Fin n → ℚ) → ℚ
  hinvO : (Fin T → ℚ) → (Fin T → Fin T → ℚ) → (Fin T → Fin T → ℚ)
  lstsqO : (Fin T → Fin T → ℚ) → (Fin T → ℚ) → (Fin T → ℚ)
  vUpd : (Fin T → ℚ) → (Fin T → Fin T → ℚ) → (Fin T → Fin T → ℚ)
  sqexpO : ℚ → ℚ → (Fin T → Fin T → ℚ)
  pinvO : (Fin T → Fin T → ℚ) → (Fin T → Fin T → ℚ)
  lbf : (Fin K → Fin N → ℚ) → (Fin L → Fin N → ℚ) → (Fin T → Fin L → ℚ) →
        (Fin L → Fin T → Fin T → ℚ) → (Fin L → Fin T → Fin T → ℚ) →
        (Fin L → Fin T → Fin T → ℚ) → (Fin T → Fin N → ℚ) → Option ℚ
  gradW : St T N L K → Fin L → ℚ

variable {T N L K : ℕ}

/-- The epsilon of the optimizer, `2 * np.finfo(float).eps` (line 121). -/
def eps : ℚ := 2 * epsMach

/-- Step-size deflation factor (line 207). -/
def deflation : ℚ := 1 / 2

/-- Step-size inflation factor (line 208). -/
def inflation : ℚ := 3 / 2

/-- Predicted-improvement threshold (line 209). -/
def thld : ℚ := 3 / 4

/-- The lower bound of the current state: `lowerbound(spike, beta, alpha,
prior_mean, prior_cov, prior_inv, post_mean, post_cov, regressor, rate)`
as called on lines 231, 269, 310, 363 and 372.  Its value depends on
exactly the listed state fields (never on step sizes or scalar
hyperparameters). -/
def lbOf (O : Ops T N L K) (st : St T N L K) : Option ℚ :=
  O.lbf st.beta st.alpha st.post_mean st.post_cov st.prior_cov st.prior_inv st.rate

/-- Rejection test of the tentative steps, `np.isnan(lb) or lb <
lbound[it-1]` (lines 233, 312; line 271 writes the equivalent
`lb - lbound[it-1] < 0`): reject when the new bound is NaN, or when both
bounds are numbers and the new one strictly decreased.  With IEEE
semantics a NaN previous bound makes the comparison false. -/
def rejectTest (lb prev : Option ℚ) : Bool :=
  match lb, prev with
  | none, _ => true
  | some _, none => false
  | some v, some p => v < p

/-- Inflation test, `lb - lbound[it-1] > thld * predict` (lines 241, 276,
317); false whenever either bound is NaN. -/
def inflateTest (lb prev : Option ℚ) (predict : ℚ) : Bool :=
  match lb, prev with
  | some v, some p => thld * predict < v - p
  | _, _ => false

/-- The exact-rational `saferate` (lines 24-28) used for the in-loop rate
refreshes: the composition `np.nan_to_num ∘ np.exp` is the total function
`O.fexp`, and the positive floor is `np.finfo(float).eps`. -/
def saferateQ (O : Ops T N L K) (ctx : Ctx T N L K) (post_mean : Fin T → Fin L → ℚ)
    (post_cov : Fin L → Fin T → Fin T → ℚ) (beta : Fin K → Fin N → ℚ)
    (alpha : Fin L → Fin N → ℚ) (t : Fin T) (n : Fin N) : ℚ :=
  let rate := O.fexp (dotv (fun k => ctx.regressor t k) (fun k => beta k n)
    + dotv (fun l => post_mean t l) (fun l => alpha l n)
    + 1 / 2 * ∑ l, (alpha l n) ^ 2 * post_cov l t t)
  if 0 < rate then rate else epsMach

/-- Rate refresh `updaterate(range(T), [n])` (lines 109-112, one column). -/
def updateRateCol (O : Ops T N L K) (ctx : Ctx T N L K) (st : St T N L K)
    (n : Fin N) : St T N L K :=
  { st with rate := fun t m =>
      if m = n then saferateQ O ctx st.post_mean st.post_cov st.beta st.alpha t n
      else st.rate t m }

/-- Rate refresh `updaterate(range(T), range(N))` (lines 109-112, everywhere). -/
def updateRateAll (O : Ops T N L K) (ctx : Ctx T N L K) (st : St T N L K) :
    St T N L K :=
  { st with rate := fun t m => saferateQ O ctx st.post_mean st.post_cov st.beta st.alpha t m }

/-! ### Coefficient (`beta`) updater, lines 215-245 -/

/-- Gradient `grad_b = np.dot(regressor.T, spike[:, n] - rate[:, n])`, line 217. -/
def gradBeta (ctx : Ctx T N L K) (st : St T N L K) (n : Fin N) : Fin K → ℚ :=
  fun k => dotv (fun t => ctx.regressor t k) (fun t => ctx.spike t n - st.rate t n)

/-- Curvature `neg_hess_b = np.dot(regressor.T, (regressor.T * rate[:, n]).T)`
(line 218): the entry at row k and column j is the sum over t of
`regressor[t,k] * rate[t,n] * regressor[t,j]`. -/
def negHessBeta (ctx : Ctx T N L K) (st : St T N L K) (n : Fin N) :
    Fin K → Fin K → ℚ :=
  fun k k' => ∑ t, ctx.regressor t k * st.rate t n * ctx.regressor t k'

/-- The tentative beta step for channel `n` given the solved direction:
`beta[:, n] += delta_b; updaterate(range(T), [n])` (lines 229-230).  The
saved `last_b`/`last_rate` of lines 226-227 are the corresponding slices
of the immutable `st`. -/
def betaTrial (O : Ops T N L K) (ctx : Ctx T N L K) (st : St T N L K)
    (n : Fin N) (delta : Fin K → ℚ) : St T N L K :=
  updateRateCol O ctx
    { st with beta := fun k m => if m = n then st.beta k n + delta k else st.beta k m } n

/-- One channel of the beta loop body after the gradient check (lines
221-245): solve (skip the channel on `LinAlgError`), step, refresh the
rate column, then accept/reject with step-size adaptation. -/
def betaStep (O : Ops T N L K) (ctx : Ctx T N L K) (prev : Option ℚ)
    (st : St T N L K) (n : Fin N) : St T N L K :=
  match O.solveB (negHessBeta ctx st n) (gradBeta ctx st n) with
  | none => st
  | some sol =>
    let delta := fun k => st.stepsize_beta n * sol k
    let predict := dotv (gradBeta ctx st n) delta
      - 1 / 2 * dotv delta (mvMul (negHessBeta ctx st n) delta)
    let st2 := betaTrial O ctx st n delta
    if rejectTest (lbOf O st2) prev then
      { st2 with
        stepsize_beta := Function.update st.stepsize_beta n
          (deflation * st.stepsize_beta n + eps),
        beta := fun k m => if m = n then st.beta k n else st2.beta k m,
        rate := fun t m => if m = n then st.rate t n else st2.rate t m }
    else if inflateTest (lbOf O st2) prev predict then
      { st2 with stepsize_beta :=
          Function.update st.stepsize_beta n (inflation * st.stepsize_beta n) }
    else st2

/-- The `for n in range(N)` loop of lines 216-245.  A gradient whose
infinity-norm is below `eps` executes `break` (line 220), ending the loop
over all remaining channels. -/
def betaLoop (O : Ops T N L K) (ctx : Ctx T N L K) (prev : Option ℚ) :
    St T N L K → List (Fin N) → St T N L K
  | st, [] => st
  | st, n :: rest =>
    if infNorm (gradBeta ctx st n) < eps then st
    else betaLoop O ctx prev (betaStep O ctx prev st n) rest

/-! ### Loading (`alpha`) updater, lines 247-279 -/

/-- Gradient `grad_a` of lines 249-250. -/
def gradAlpha (ctx : Ctx T N L K) (st : St T N L K) (l : Fin L) : Fin N → ℚ :=
  fun n => dotv (fun t => ctx.spike t n - st.rate t n) (fun t => st.post_mean t l)
    - dotv (fun t => st.rate t n) (fun t => st.post_cov l t t) * st.alpha l n

/-- Curvature `neg_hess_a` of lines 251-254: a diagonal matrix. -/
def negHessAlpha (ctx : Ctx T N L K) (st : St T N L K) (l : Fin L) :
    Fin N → Fin N → ℚ :=
  fun n m =>
    if n = m then
      dotv (fun t => st.rate t n) (fun t => st.post_mean t l ^ 2)
        + 2 * dotv (fun t => st.rate t n) (fun t => st.post_mean t l * st.post_cov l t t)
          * st.alpha l n
        + dotv (fun t => st.rate t n) (fun t => st.post_cov l t t ^ 2) * st.alpha l n ^ 2
        + dotv (fun t => st.rate t n) (fun t => st.post_cov l t t)
    else 0

/-- The tentative alpha step for latent `l` (lines 264-268): add the
scaled direction, renormalize the row to `normofalpha` (line 265), and
refresh the whole rate matrix. -/
def alphaTrial (O : Ops T N L K) (ctx : Ctx T N L K) (st : St T N L K)
    (l : Fin L) (delta : Fin N → ℚ) : St T N L K :=
  updateRateAll O ctx
    { st with alpha := fun l' n =>
        if l' = l then
          (st.alpha l n + delta n) / (O.normE (fun m => st.alpha l m + delta m) / ctx.normofalpha)
        else st.alpha l' n }

/-- One latent of the alpha loop body after the gradient check (lines
257-279).  `delta_a` is re-derived from the actual displacement after the
renormalization (line 266) before the predicted-improvement test. -/
def alphaStep (O : Ops T N L K) (ctx : Ctx T N L K) (prev : Option ℚ)
    (st : St T N L K) (l : Fin L) : St T N L K :=
  match O.solveA (negHessAlpha ctx st l) (gradAlpha ctx st l) with
  | none => st
  | some sol =>
    let delta := fun n => st.stepsize_alpha l * sol n
    let st2 := alphaTrial O ctx st l delta
    let delta2 := fun n => st2.alpha l n - st.alpha l n
    let predict := dotv (gradAlpha ctx st l) delta2
      - 1 / 2 * dotv delta2 (mvMul (negHessAlpha ctx st l) delta2)
    if rejectTest (lbOf O st2) prev then
      { st2 with
        stepsize_alpha := Function.update st.stepsize_alpha l
          (deflation * st.stepsize_alpha l + eps),
        alpha := fun l' n => if l' = l then st.alpha l n else st2.alpha l' n,
        rate := st.rate }
    else if inflateTest (lbOf O st2) prev predict then
      { st2 with stepsize_alpha :=
          Function.update st.stepsize_alpha l (inflation * st.stepsize_alpha l) }
    else st2

/-- The `for l in range(L)` loop of lines 248-279, with `break` on a
small gradient (lines 255-256). -/
def alphaLoop (O : Ops T N L K) (ctx : Ctx T N L K) (prev : Option ℚ) :
    St T N L K → List (Fin L) → St T N L K
  | st, [] => st
  | st, l :: rest =>
    if infNorm (gradAlpha ctx st l) < eps then st
    else alphaLoop O ctx prev (alphaStep O ctx prev st l) rest

/-! ### Posterior-mean updater, lines 282-320 -/

/-- Gradient `grad_m` of lines 286-287. -/
def gradM (ctx : Ctx T N L K) (st : St T N L K) (l : Fin L) : Fin T → ℚ :=
  fun t => dotv (fun n => ctx.spike t n - st.rate t n) (fun n => st.alpha l n)
    - dotv (fun s => st.prior_inv l t s) (fun s => st.post_mean s l - ctx.prior_mean s l)

/-- The rate-curvature vector `w = np.dot(rate, alpha[l, :] ** 2)` of
lines 288 and 325 (a local that shadows the hyperparameter array `w`). -/
def wVec (st : St T N L K) (l : Fin L) : Fin T → ℚ :=
  fun t => dotv (fun n => st.rate t n) (fun n => st.alpha l n ^ 2)

/-- The tentative posterior-mean step for latent `l` (lines 305-309): add
the scaled direction, subtract the column mean (line 306), and refresh
the whole rate matrix. -/
def postMeanTrial (O : Ops T N L K) (ctx : Ctx T N L K) (st : St T N L K)
    (l : Fin L) (delta : Fin T → ℚ) : St T N L K :=
  updateRateAll O ctx
    { st with post_mean := fun t l' =>
        if l' = l then
          st.post_mean t l + delta t - (∑ s, (st.post_mean s l + delta s)) / T
        else st.post_mean t l' }

/-- One latent of the posterior-mean loop body after the gradient check
(lines 298-320).  The Newton direction is `hinv · grad_m` with `hinv` the
Woodbury-factorized effective inverse Hessian of lines 288-294 (the
`try`/`except` of lines 298-302 guards only the matrix-vector product,
which cannot raise, so the body always proceeds).  `pmDelta` is the
scaled Newton direction `stepsize_post_mean[l] * np.dot(hinv, grad_m)` of
line 299. -/
def pmDelta (O : Ops T N L K) (ctx : Ctx T N L K) (st : St T N L K)
    (l : Fin L) : Fin T → ℚ :=
  fun t => st.stepsize_post_mean l *
    dotv (O.hinvO (wVec st l) (st.prior_cov l) t) (gradM ctx st l)

/-- One latent of the posterior-mean loop body after the gradient check
(lines 298-320): apply the step with re-centering, refresh the rate, then
accept/reject with step-size adaptation (lines 303-320). -/
def postMeanStep (O : Ops T N L K) (ctx : Ctx T N L K) (prev : Option ℚ)
    (st : St T N L K) (l : Fin L) : St T N L K :=
  let hinv := O.hinvO (wVec st l) (st.prior_cov l)
  let delta := pmDelta O ctx st l
  let st2 := postMeanTrial O ctx st l delta
  let delta2 := fun t => st2.post_mean t l - st.post_mean t l
  let predict := dotv (gradM ctx st l) delta2
    - 1 / 2 * dotv delta2 (O.lstsqO hinv delta2)
  if rejectTest (lbOf O st2) prev then
    { st2 with
      stepsize_post_mean := Function.update st.stepsize_post_mean l
        (deflation * st.stepsize_post_mean l + eps),
      post_mean := fun t l' => if l' = l then st.post_mean t l else st2.post_mean t l',
      rate := st.rate }
  else if inflateTest (lbOf O st2) prev predict then
    { st2 with stepsize_post_mean :=
        Function.update st.stepsize_post_mean l (inflation * st.stepsize_post_mean l) }
  else st2

/-- The `for l in range(L)` loop of lines 283-320, with `break` on a
small gradient (lines 296-297). -/
def postMeanLoop (O : Ops T N L K) (ctx : Ctx T N L K) (prev : Option ℚ) :
    St T N L K → List (Fin L) → St T N L K
  | st, [] => st
  | st, l :: rest =>
    if infNorm (gradM ctx st l) < eps then st
    else postMeanLoop O ctx prev (postMeanStep O ctx prev st l) rest

/-! ### Posterior-covariance updater, lines 322-333.  Closed-form, and
the only block with no acceptance test of any kind. -/

/-- The `for l in range(L)` loop of lines 324-333: overwrite `post_cov[l]`
with the Woodbury update and refresh the whole rate matrix, with no
accept/reject guard. -/
def postCovLoop (O : Ops T N L K) (ctx : Ctx T N L K) :
    St T N L K → List (Fin L) → St T N L K
  | st, [] => st
  | st, l :: rest =>
    postCovLoop O ctx
      (updateRateAll O ctx
        { st with post_cov := fun l' =>
            if l' = l then O.vUpd (wVec st l) (st.prior_cov l) else st.post_cov l' })
      rest

/-! ### Hyperparameter step, lines 335-369

The source saves `last_prior_cov`/`last_prior_inv` once, before the loop
over latents (lines 336-337); each latent only ever touches its own
slice, so when latent `l` is processed the saved slice `l` still equals the
current one.  Note the aliasing wart of the source: the `w[l] += ...` of
line 356 writes to whatever `w` currently names — the hyperparameter
array only as long as the posterior-mean and posterior-covariance blocks
(which rebind `w`, lines 288 and 325) are frozen.  The model keeps the
hyperparameter array `what`; the updated scalar is fed to `sqexpcov`
exactly as on line 360.  Nothing in the claims depends on the stepped
value itself, which enters only through `O.sqexpO` and `O.gradW`. -/

/-- Closed-form variance `new_var` of lines 339-341. -/
def newVar (ctx : Ctx T N L K) (st : St T N L K) (l : Fin L) : ℚ :=
  st.variance l *
    (dotv (fun t => st.post_mean t l - ctx.prior_mean t l)
        (mvMul (st.prior_inv l) (fun t => st.post_mean t l - ctx.prior_mean t l))
      + traceMul (st.prior_inv l) (st.post_cov l)) / T

/-- The tentative hyperparameter update for latent `l` (lines 339-362):
store the closed-form variance, take the gradient step on the
lengthscale scalar, and regenerate `prior_cov[l]` and `prior_inv[l]`
together from the new values. -/
def hyperTrial (O : Ops T N L K) (ctx : Ctx T N L K) (st : St T N L K)
    (l : Fin L) : St T N L K :=
  let st1 := { st with variance := Function.update st.variance l (newVar ctx st l) }
  let st2 :=
    { st1 with
      what := Function.update st1.what l (st1.what l + st1.stepsize_w l * O.gradW st1 l) }
  { st2 with
    prior_cov := Function.update st2.prior_cov l (O.sqexpO (st2.what l) (st2.variance l)),
    prior_inv := Function.update st2.prior_inv l
      (O.pinvO (O.sqexpO (st2.what l) (st2.variance l))) }

/-- One latent of the hyperparameter loop (lines 338-369): tentative
update, then the accept/reject test of lines 363-369.  On rejection only
`prior_cov[l]` and `prior_inv[l]` are restored (from the entry snapshot)
and `stepsize_w[l]` is halved; `variance[l]` and the stepped lengthscale
scalar keep their new values. -/
def hyperStep (O : Ops T N L K) (ctx : Ctx T N L K) (prev : Option ℚ)
    (lastPC lastPI : Fin L → Fin T → Fin T → ℚ) (st : St T N L K)
    (l : Fin L) : St T N L K :=
  let st3 := hyperTrial O ctx st l
  if rejectTest (lbOf O st3) prev then
    { st3 with
      prior_cov := Function.update st3.prior_cov l (lastPC l),
      prior_inv := Function.update st3.prior_inv l (lastPI l),
      stepsize_w := Function.update st3.stepsize_w l (st3.stepsize_w l * (1 / 2)) }
  else st3

/-- The `for l in range(L)` loop of lines 338-369. -/
def hyperLoop (O : Ops T N L K) (ctx : Ctx T N L K) (prev : Option ℚ)
    (lastPC lastPI : Fin L → Fin T → Fin T → ℚ) :
    St T N L K → List (Fin L) → St T N L K
  | st, [] => st
  | st, l :: rest =>
    hyperLoop O ctx prev lastPC lastPI (hyperStep O ctx prev lastPC lastPI st l) rest

/-! ### One outer iteration and the main loop, lines 214-405 -/

/-- One outer iteration of the `while` loop (lines 214-373): the four
block updaters in order, each behind its freeze flag, then conditionally
the hyperparameter step.  `prev` is `lbound[it - 1]`. -/
def outerIter (O : Ops T N L K) (ctx : Ctx T N L K)
    (fixbeta fixalpha fixpostmean fixpostcov hyperOn : Bool)
    (prev : Option ℚ) (st : St T N L K) : St T N L K :=
  let s1 := if fixbeta then st else betaLoop O ctx prev st (List.finRange N)
  let s2 := if fixalpha then s1 else alphaLoop O ctx prev s1 (List.finRange L)
  let s3 := if fixpostmean then s2 else postMeanLoop O ctx prev s2 (List.finRange L)
  let s4 := if fixpostcov then s3 else postCovLoop O ctx s3 (List.finRange L)
  if hyperOn then hyperLoop O ctx prev s4.prior_cov s4.prior_inv s4 (List.finRange L)
  else s4

/-- The convergence measure of lines 376-380: the maximum absolute
change of the four blocks against the last outer-iteration snapshot,
frozen blocks contributing `0.0`.  Python `max(a, b, c, d)` folds left. -/
def changeOf (fixbeta fixalpha fixpostmean fixpostcov : Bool)
    (good st : St T N L K) : ℚ :=
  max (max (max (if fixalpha then 0 else maxAbsDiff good.alpha st.alpha)
                (if fixbeta then 0 else maxAbsDiff good.beta st.beta))
           (if fixpostmean then 0 else maxAbsDiff good.post_mean st.post_mean))
      (if fixpostcov then 0 else maxAbsDiff3 good.post_cov st.post_cov)

/-- Result of a fit: the recorded lower-bound trace `lbound[:it]`, the
per-iteration convergence measures, the final state, the `converged`
flag, and the warnings emitted during the run (the `variational` of the source
contains no `warnings.warn` call, so this list is always empty; the
alternative implementation in vb.py warns on non-convergence instead of
returning a flag). -/
structure RunResult (T N L K : ℕ) where
  trace : List (Option ℚ)
  changes : List ℚ
  final : St T N L K
  converged : Bool
  warned : List String

/-- The `while not converged and it < maxiter` loop (lines 214-401),
with `k` the remaining iteration budget `maxiter - it` and `it` the
iteration counter of the source (for the `it % 5 == 0` hyperparameter gate of
line 335).  Each pass records `lbound[it]` (line 372) and the change
measure, tests convergence (line 382), and snapshots the accepted state
(lines 396-399, modelled by passing `st'` as the next `good`). -/
def loopAux (O : Ops T N L K) (ctx : Ctx T N L K)
    (fixbeta fixalpha fixpostmean fixpostcov hyper : Bool) (tol : ℚ) :
    ℕ → ℕ → Option ℚ → St T N L K → St T N L K →
    List (Option ℚ) × List ℚ × St T N L K × Bool
  | 0, _, _, _, st => ([], [], st, false)
  | k + 1, it, prev, good, st =>
    let hyperOn := hyper && it % 5 == 0
    let st' := outerIter O ctx fixbeta fixalpha fixpostmean fixpostcov hyperOn prev st
    let b := lbOf O st'
    let ch := changeOf fixbeta fixalpha fixpostmean fixpostcov good st'
    if ch < tol then ([b], [ch], st', true)
    else
      let r := loopAux O ctx fixbeta fixalpha fixpostmean fixpostcov hyper tol
        k (it + 1) b st' st'
      (b :: r.1, ch :: r.2.1, r.2.2.1, r.2.2.2)

/-- The state after the initialization phase (lines 127-206): prior
covariance `variance[l] * sqexpcov(T, w[l], 1)` (line 143) with its
SVD pseudo-inverse (lines 144-146), posterior initialized to the prior
(lines 162-168, with `m0` the explicitly supplied initial mean), the
supplied `a0`/`b0` (the source draws random or least-squares defaults
when they are `None`; the model takes them as inputs), the initial rate
matrix (lines 180-181), and unit step sizes (lines 203-206). -/
def initState (O : Ops T N L K) (ctx : Ctx T N L K)
    (prior_var prior_w : Fin L → ℚ) (a0 : Fin L → Fin N → ℚ)
    (b0 : Fin K → Fin N → ℚ) (m0 : Fin T → Fin L → ℚ) : St T N L K :=
  let prior_cov := fun l => fun i j => prior_var l * O.sqexpO (prior_w l) 1 i j
  let prior_inv := fun l => O.pinvO (prior_cov l)
  let st0 : St T N L K :=
    { beta := b0, alpha := a0, post_mean := m0,
      post_cov := prior_cov, prior_cov := prior_cov, prior_inv := prior_inv,
      variance := prior_var, what := prior_w,
      rate := fun _ _ => 0,
      stepsize_beta := fun _ => 1, stepsize_alpha := fun _ => 1,
      stepsize_post_mean := fun _ => 1, stepsize_w := fun _ => 1 }
  updateRateAll O ctx st0

/-- The whole fit (lines 107-405): initialize, record `lbound[0]`
(lines 184-186), run the loop from `it = 1`, and return the trace and
the `converged` flag (line 405). -/
def variationalRun (O : Ops T N L K) (ctx : Ctx T N L K)
    (fixbeta fixalpha fixpostmean fixpostcov hyper : Bool)
    (prior_var prior_w : Fin L → ℚ) (a0 : Fin L → Fin N → ℚ)
    (b0 : Fin K → Fin N → ℚ) (m0 : Fin T → Fin L → ℚ)
    (tol : ℚ) (maxiter : ℕ) : RunResult T N L K :=
  let st0 := initState O ctx prior_var prior_w a0 b0 m0
  let b0v := lbOf O st0
  let r := loopAux O ctx fixbeta fixalpha fixpostmean fixpostcov hyper tol
    (maxiter - 1) 1 b0v st0 st0
  { trace := b0v :: r.1, changes := r.2.1, final := r.2.2.1,
    converged := r.2.2.2, warned := [] }

/-! ## Theorems -/

/-- Helper: the concrete `exp` model has the IEEE `exp` range property. -/
theorem fexpModel_expRange : ExpRange fexpModel := by
  intro x
  cases x with
  | fv q =>
    simp only [fexpModel]
    by_cases h1 : q < -746
    · exact Or.inr (Or.inr ⟨0, le_refl 0, by simp [h1]⟩)
    · by_cases h2 : 710 < q
      · exact Or.inr (Or.inl (by simp [h1, h2]))
      · exact Or.inr (Or.inr ⟨1, by norm_num, by simp [h1, h2]⟩)
  | inf => exact Or.inr (Or.inl rfl)
  | ninf => exact Or.inr (Or.inr ⟨0, le_refl 0, rfl⟩)
  | nan => exact Or.inl rfl

/-- Claim C10: calling `variational` with its module-level default
configuration raises `KeyError` before any optimization is performed:
the dictionary `default_control` defines the key `maxiter` (and no key
`max iteration`), while the first control read of the function is of the
key `max iteration`, so the fit body is never reached (the
continuation `runFit` is irrelevant to the result). -/
theorem c10_default_control_keyerror {α : Type}
    (runFit : CVal × CVal × CVal × CVal → α) :
    variationalEntry default_control runFit = Except.error "max iteration" ∧
      dictGet default_control "maxiter" = Except.ok (CVal.num 200) := by
  constructor
  · rfl
  · rfl

/-- Witness for C10: the error is raised with a concrete continuation in
place of the fit body. -/
theorem c10_default_control_keyerror_witness :
    variationalEntry default_control (fun _ => (0 : ℚ)) = Except.error "max iteration" ∧
      dictGet default_control "maxiter" = Except.ok (CVal.num 200) :=
  c10_default_control_keyerror (fun _ => (0 : ℚ))

/-- Claim C4 (amended part): for `saferate` of src/optimization.py and
every `exp` with the IEEE range behaviour, every input — including ones
driving the exponential to overflow, underflow or NaN — yields a strictly
positive finite rate: a non-finite exponential is replaced by
`np.nan_to_num` and a non-positive result is floored to machine epsilon. -/
theorem c4_saferate_positive_finite {T N L K : ℕ} (fexp : FVal → FVal)
    (hexp : ExpRange fexp) (t : Fin T) (n : Fin N)
    (regressor : Fin T → Fin K → FVal) (post_mean : Fin T → Fin L → FVal)
    (post_cov : Fin L → Fin T → Fin T → FVal)
    (beta : Fin K → Fin N → FVal) (alpha : Fin L → Fin N → FVal) :
    ∃ q : ℚ, saferate fexp t n regressor post_mean post_cov beta alpha = FVal.fv q ∧
      0 < q := by
  unfold saferate
  rcases hexp (lograteF t n regressor post_mean post_cov beta alpha) with h | h | ⟨q, hq, h⟩
  · refine ⟨epsMach, ?_, by norm_num [epsMach]⟩
    rw [h]
    simp [nanToNum, FVal.flt]
  · refine ⟨maxFloat, ?_, by norm_num [maxFloat]⟩
    rw [h]
    have : FVal.flt (FVal.fv 0) (FVal.fv maxFloat) = true := by
      simp only [FVal.flt, decide_eq_true_eq]
      norm_num [maxFloat]
    simp [nanToNum, this]
  · rw [h]
    by_cases hq0 : 0 < q
    · exact ⟨q, by simp [nanToNum, FVal.flt, hq0], hq0⟩
    · refine ⟨epsMach, ?_, by norm_num [epsMach]⟩
      simp [nanToNum, FVal.flt, hq0]

/-- Witness for C4: a concrete evaluation of the theorem, with the
concrete `exp` model and inputs driving the exponential into overflow. -/
theorem c4_saferate_positive_finite_witness :
    ∃ q : ℚ,
      saferate (T := 1) (N := 1) (L := 1) (K := 1) fexpModel 0 0
          (fun _ _ => FVal.fv 1) (fun _ _ => FVal.fv 0) (fun _ _ _ => FVal.fv 0)
          (fun _ _ => FVal.fv 800) (fun _ _ => FVal.fv 0) = FVal.fv q ∧
        0 < q :=
  c4_saferate_positive_finite fexpModel fexpModel_expRange 0 0
    (fun _ _ => FVal.fv 1) (fun _ _ => FVal.fv 0) (fun _ _ _ => FVal.fv 0)
    (fun _ _ => FVal.fv 800) (fun _ _ => FVal.fv 0)

/-- Counterexample for C4 as stated: the claim also cites `saferate` of
src/vb.py (lines 306-308), which has no positive floor.  With the IEEE
`exp` model and a log-rate of `-800` (deep underflow, `exp` returns
exactly `0.0`), `vb.saferate` returns exactly `0`, which is not strictly
positive. -/
theorem c4_vb_saferate_returns_zero :
    saferateVB (T := 1) (N := 1) (L := 1) (K := 1) fexpModel 0 0
        (fun _ _ => FVal.fv 1) (fun _ _ => FVal.fv 0) (fun _ _ _ => FVal.fv 0)
        (fun _ _ => FVal.fv (-800)) (fun _ _ => FVal.fv 0) = FVal.fv 0 ∧
      ¬ (0 : ℚ) < 0 := by
  constructor
  · norm_num [saferateVB, lograteF, fdot, fsum, List.ofFn_succ, List.ofFn_zero,
      FVal.mul, FVal.add, fexpModel, nanToNum]
  · norm_num

/-! ### Concrete instances used by witnesses and counterexamples -/

/-- A concrete 1x1x1x1 context. -/
def ctxW : Ctx 1 1 1 1 :=
  { spike := fun _ _ => 1, regressor := fun _ _ => 1,
    prior_mean := fun _ _ => 0, normofalpha := 1 }

/-- A concrete 1x1x1x1 state. -/
def stW : St 1 1 1 1 :=
  { beta := fun _ _ => 0, alpha := fun _ _ => 0, post_mean := fun _ _ => 0,
    post_cov := fun _ _ _ => 0, prior_cov := fun _ _ _ => 0,
    prior_inv := fun _ _ _ => 0, variance := fun _ => 1, what := fun _ => 1,
    rate := fun _ _ => 1, stepsize_beta := fun _ => 1,
    stepsize_alpha := fun _ => 1, stepsize_post_mean := fun _ => 1,
    stepsize_w := fun _ => 1 }

/-- A concrete instantiation of the library routines, with a constant
lower bound of `0`. -/
def opsC : Ops 1 1 1 1 :=
  { solveB := fun _ g => some g, solveA := fun _ g => some g,
    fexp := fun _ => 1, normE := fun _ => 1,
    hinvO := fun _ _ => fun _ _ => 1, lstsqO := fun _ v => v,
    vUpd := fun _ _ => fun _ _ => 1, sqexpO := fun _ v => fun _ _ => v,
    pinvO := fun m => m,
    lbf := fun _ _ _ _ _ _ _ => some 0, gradW := fun _ _ => 1 }

/-- Claim C6: after every accepted posterior-mean step on latent `l`, the
posterior-mean column `post_mean[:, l]` has zero mean — the column is
re-centered by subtracting its mean (line 306) before the acceptance test
of line 312, and an accepted step keeps the centered column.  In the
exact-arithmetic model the mean is exactly zero. -/
theorem c6_postmean_centered_after_accept (O : Ops T N L K) (ctx : Ctx T N L K)
    (prev : Option ℚ) (st : St T N L K) (l : Fin L) (hT : 0 < T)
    (hacc : rejectTest (lbOf O (postMeanTrial O ctx st l (pmDelta O ctx st l)))
      prev = false) :
    (∑ t, (postMeanStep O ctx prev st l).post_mean t l) / (T : ℚ) = 0 := by
  have hT' : (T : ℚ) ≠ 0 := Nat.cast_ne_zero.mpr hT.ne'
  have hpm : (postMeanStep O ctx prev st l).post_mean
      = (postMeanTrial O ctx st l (pmDelta O ctx st l)).post_mean := by
    simp only [postMeanStep, hacc, Bool.false_eq_true, if_false]
    split <;> rfl
  have hcol : ∀ t, (postMeanTrial O ctx st l (pmDelta O ctx st l)).post_mean t l
      = st.post_mean t l + pmDelta O ctx st l t
        - (∑ s, (st.post_mean s l + pmDelta O ctx st l s)) / (T : ℚ) := by
    intro t
    simp [postMeanTrial, updateRateAll]
  rw [hpm]
  have hsum : (∑ t, (postMeanTrial O ctx st l (pmDelta O ctx st l)).post_mean t l) = 0 := by
    simp only [hcol]
    rw [Finset.sum_sub_distrib, Finset.sum_const, Finset.card_univ, Fintype.card_fin,
      nsmul_eq_mul, mul_div_cancel₀ _ hT']
    exact sub_self _
  rw [hsum, zero_div]

/-- Witness for C6: a concrete accepted posterior-mean step whose new
column has zero mean. -/
theorem c6_postmean_centered_after_accept_witness :
    (∑ t, (postMeanStep opsC ctxW (some 0) stW 0).post_mean t 0) / ((1 : ℕ) : ℚ) = 0 :=
  c6_postmean_centered_after_accept opsC ctxW (some 0) stW 0 (by norm_num)
    (by norm_num [rejectTest, lbOf, opsC])

/-- Ops instance for the C5 witness: the solved direction is the constant
`3` and `linalg.norm` returns `3`, the exact Euclidean norm of the
stepped 1-entry row. -/
def opsC5 : Ops 1 1 1 1 :=
  { opsC with solveA := fun _ _ => some (fun _ => 3), normE := fun _ => 3 }

/-- Claim C5: after every accepted loading step on latent `l`, the
updated row `alpha[l, :]` has Euclidean norm `normofalpha`: line 265
rescales the row by `normofalpha / linalg.norm(row)` immediately after
every alpha step, before the acceptance test, and an accepted step keeps
the rescaled row.  Stated via the squared norm (so that it is exact
rational arithmetic), under the hypothesis that `linalg.norm` returns the
exact Euclidean norm of the stepped row. -/
theorem c5_alpha_norm_after_accept (O : Ops T N L K) (ctx : Ctx T N L K)
    (prev : Option ℚ) (st : St T N L K) (l : Fin L) (sol : Fin N → ℚ)
    (hsol : O.solveA (negHessAlpha ctx st l) (gradAlpha ctx st l) = some sol)
    (hnorm : (O.normE (fun n => st.alpha l n + st.stepsize_alpha l * sol n)) ^ 2
      = ∑ n, (st.alpha l n + st.stepsize_alpha l * sol n) ^ 2)
    (hpos : 0 < O.normE (fun n => st.alpha l n + st.stepsize_alpha l * sol n))
    (hna : 0 < ctx.normofalpha)
    (hacc : rejectTest
      (lbOf O (alphaTrial O ctx st l (fun n => st.stepsize_alpha l * sol n)))
      prev = false) :
    ∑ n, ((alphaStep O ctx prev st l).alpha l n) ^ 2 = ctx.normofalpha ^ 2 := by
  have halpha : (alphaStep O ctx prev st l).alpha
      = (alphaTrial O ctx st l (fun n => st.stepsize_alpha l * sol n)).alpha := by
    simp only [alphaStep, hsol, hacc, Bool.false_eq_true, if_false]
    split <;> rfl
  have hrow : ∀ n, (alphaTrial O ctx st l (fun n => st.stepsize_alpha l * sol n)).alpha l n
      = (st.alpha l n + st.stepsize_alpha l * sol n) /
        (O.normE (fun m => st.alpha l m + st.stepsize_alpha l * sol m) / ctx.normofalpha) := by
    intro n
    simp [alphaTrial, updateRateAll]
  rw [halpha]
  simp only [hrow, div_pow]
  rw [← Finset.sum_div, ← hnorm]
  have h1 : O.normE (fun m => st.alpha l m + st.stepsize_alpha l * sol m) ≠ 0 :=
    ne_of_gt hpos
  have h2 : ctx.normofalpha ≠ 0 := ne_of_gt hna
  field_simp

/-- Witness for C5: a concrete accepted loading step whose new row has
squared norm `normofalpha ^ 2 = 1`. -/
theorem c5_alpha_norm_after_accept_witness :
    ∑ n, ((alphaStep opsC5 ctxW (some 0) stW 0).alpha 0 n) ^ 2 = ctxW.normofalpha ^ 2 :=
  c5_alpha_norm_after_accept opsC5 ctxW (some 0) stW 0 (fun _ => 3) rfl
    (by norm_num [opsC5, stW, Fin.sum_univ_one])
    (by norm_num [opsC5])
    (by norm_num [ctxW])
    (by norm_num [rejectTest, lbOf, opsC5, opsC])

/-- State for witnesses that need nonzero gradients: rate `0` against
spike `1` (so `grad_b = 1`), posterior mean `1` (so `grad_a = 1`). -/
def stC7 : St 1 1 1 1 :=
  { stW with rate := fun _ _ => 0, post_mean := fun _ _ => 1 }

/-- Ops instance whose two Newton solves raise `LinAlgError`. -/
def opsC7 : Ops 1 1 1 1 :=
  { opsC with solveB := fun _ _ => none, solveA := fun _ _ => none }

/-- Claim C7: when the Newton linear solve for a beta channel or an alpha
latent raises `LinAlgError` (lines 221-225 and 257-261), that block is
skipped with no change at all to the optimizer state — the `except`
branch runs before anything is saved or written — and the loop continues
with the next block on the unchanged state; no exception propagates
(the step functions are total). -/
theorem c7_singular_solve_skips_block (O : Ops T N L K) (ctx : Ctx T N L K)
    (prev : Option ℚ) (st : St T N L K) (n : Fin N) (ns : List (Fin N))
    (l : Fin L) (ls : List (Fin L))
    (hgB : ¬ infNorm (gradBeta ctx st n) < eps)
    (hsB : O.solveB (negHessBeta ctx st n) (gradBeta ctx st n) = none)
    (hgA : ¬ infNorm (gradAlpha ctx st l) < eps)
    (hsA : O.solveA (negHessAlpha ctx st l) (gradAlpha ctx st l) = none) :
    betaStep O ctx prev st n = st ∧
      betaLoop O ctx prev st (n :: ns) = betaLoop O ctx prev st ns ∧
      alphaStep O ctx prev st l = st ∧
      alphaLoop O ctx prev st (l :: ls) = alphaLoop O ctx prev st ls := by
  have hb : betaStep O ctx prev st n = st := by
    simp only [betaStep, hsB]
  have ha : alphaStep O ctx prev st l = st := by
    simp only [alphaStep, hsA]
  refine ⟨hb, ?_, ha, ?_⟩
  · rw [betaLoop, if_neg hgB, hb]
  · rw [alphaLoop, if_neg hgA, ha]

/-- Witness for C7: a concrete singular solve on both blocks. -/
theorem c7_singular_solve_skips_block_witness :
    betaStep opsC7 ctxW (some 0) stC7 0 = stC7 ∧
      betaLoop opsC7 ctxW (some 0) stC7 (0 :: []) = betaLoop opsC7 ctxW (some 0) stC7 [] ∧
      alphaStep opsC7 ctxW (some 0) stC7 0 = stC7 ∧
      alphaLoop opsC7 ctxW (some 0) stC7 (0 :: []) = alphaLoop opsC7 ctxW (some 0) stC7 [] :=
  c7_singular_solve_skips_block opsC7 ctxW (some 0) stC7 0 [] 0 []
    (by norm_num [infNorm, gradBeta, dotv, eps, epsMach, ctxW, stC7, stW,
      List.ofFn_succ, List.ofFn_zero, Fin.sum_univ_one])
    rfl
    (by norm_num [infNorm, gradAlpha, dotv, eps, epsMach, ctxW, stC7, stW,
      List.ofFn_succ, List.ofFn_zero, Fin.sum_univ_one])
    rfl

/-- Ops instance for the C2 witness: constant lower bound `-1`, so every
tentative step is rejected against a previous bound of `0`. -/
def opsC2 : Ops 1 1 1 1 :=
  { opsC with lbf := fun _ _ _ _ _ _ _ => some (-1) }

/-- Claim C2 (amended): for every tentative block-Newton step — beta per
channel, alpha per latent, posterior mean per latent — if the recomputed
ELBO is NaN or STRICTLY DECREASED relative to the previous outer
iteration bound (the source tests `np.isnan(lb) or lb < lbound[it-1]`,
lines 233, 271, 312; an unchanged ELBO is accepted), the updater restores
the saved parameter block and the saved rate slice exactly to their
pre-step values and replaces the step size of the block by `deflation` times
its old value plus the small positive floor `eps`, so a non-negative step
size stays strictly positive. -/
theorem c2_reject_restores_and_deflates (O : Ops T N L K) (ctx : Ctx T N L K)
    (prev : Option ℚ) (st : St T N L K) (n : Fin N) (l l' : Fin L)
    (solB : Fin K → ℚ) (solA : Fin N → ℚ)
    (hsB : O.solveB (negHessBeta ctx st n) (gradBeta ctx st n) = some solB)
    (hrB : rejectTest
      (lbOf O (betaTrial O ctx st n (fun k => st.stepsize_beta n * solB k)))
      prev = true)
    (hsA : O.solveA (negHessAlpha ctx st l) (gradAlpha ctx st l) = some solA)
    (hrA : rejectTest
      (lbOf O (alphaTrial O ctx st l (fun m => st.stepsize_alpha l * solA m)))
      prev = true)
    (hrM : rejectTest (lbOf O (postMeanTrial O ctx st l' (pmDelta O ctx st l')))
      prev = true)
    (hpB : 0 ≤ st.stepsize_beta n) (hpA : 0 ≤ st.stepsize_alpha l)
    (hpM : 0 ≤ st.stepsize_post_mean l') :
    ((betaStep O ctx prev st n).beta = st.beta ∧
      (betaStep O ctx prev st n).rate = st.rate ∧
      (betaStep O ctx prev st n).stepsize_beta n
        = deflation * st.stepsize_beta n + eps ∧
      0 < (betaStep O ctx prev st n).stepsize_beta n) ∧
    ((alphaStep O ctx prev st l).alpha = st.alpha ∧
      (alphaStep O ctx prev st l).rate = st.rate ∧
      (alphaStep O ctx prev st l).stepsize_alpha l
        = deflation * st.stepsize_alpha l + eps ∧
      0 < (alphaStep O ctx prev st l).stepsize_alpha l) ∧
    ((postMeanStep O ctx prev st l').post_mean = st.post_mean ∧
      (postMeanStep O ctx prev st l').rate = st.rate ∧
      (postMeanStep O ctx prev st l').stepsize_post_mean l'
        = deflation * st.stepsize_post_mean l' + eps ∧
      0 < (postMeanStep O ctx prev st l').stepsize_post_mean l') := by
  have hb : betaStep O ctx prev st n
      = { betaTrial O ctx st n (fun k => st.stepsize_beta n * solB k) with
          stepsize_beta := Function.update st.stepsize_beta n
            (deflation * st.stepsize_beta n + eps),
          beta := fun k m => if m = n then st.beta k n
            else (betaTrial O ctx st n (fun k => st.stepsize_beta n * solB k)).beta k m,
          rate := fun t m => if m = n then st.rate t n
            else (betaTrial O ctx st n (fun k => st.stepsize_beta n * solB k)).rate t m } := by
    simp only [betaStep, hsB, hrB, if_true]
  have ha : alphaStep O ctx prev st l
      = { alphaTrial O ctx st l (fun m => st.stepsize_alpha l * solA m) with
          stepsize_alpha := Function.update st.stepsize_alpha l
            (deflation * st.stepsize_alpha l + eps),
          alpha := fun l'' m => if l'' = l then st.alpha l m
            else (alphaTrial O ctx st l (fun m => st.stepsize_alpha l * solA m)).alpha l'' m,
          rate := st.rate } := by
    simp only [alphaStep, hsA, hrA, if_true]
  have hm : postMeanStep O ctx prev st l'
      = { postMeanTrial O ctx st l' (pmDelta O ctx st l') with
          stepsize_post_mean := Function.update st.stepsize_post_mean l'
            (deflation * st.stepsize_post_mean l' + eps),
          post_mean := fun t l'' => if l'' = l' then st.post_mean t l'
            else (postMeanTrial O ctx st l' (pmDelta O ctx st l')).post_mean t l'',
          rate := st.rate } := by
    simp only [postMeanStep, hrM, if_true]
  have hstep : (0 : ℚ) < eps := by norm_num [eps, epsMach]
  refine ⟨⟨?_, ?_, ?_, ?_⟩, ⟨?_, ?_, ?_, ?_⟩, ⟨?_, ?_, ?_, ?_⟩⟩
  · rw [hb]
    funext k m
    by_cases hmn : m = n
    · subst hmn; simp
    · simp [hmn, betaTrial, updateRateCol]
  · rw [hb]
    funext t m
    by_cases hmn : m = n
    · subst hmn; simp
    · simp [hmn, betaTrial, updateRateCol]
  · rw [hb]; simp
  · rw [hb]
    simp only [Function.update_same]
    have : (0 : ℚ) ≤ deflation * st.stepsize_beta n := by
      apply mul_nonneg _ hpB; norm_num [deflation]
    linarith
  · rw [ha]
    funext l'' m
    by_cases hll : l'' = l
    · subst hll; simp
    · simp [hll, alphaTrial, updateRateAll]
  · rw [ha]
  · rw [ha]; simp
  · rw [ha]
    simp only [Function.update_same]
    have : (0 : ℚ) ≤ deflation * st.stepsize_alpha l := by
      apply mul_nonneg _ hpA; norm_num [deflation]
    linarith
  · rw [hm]
    funext t l''
    by_cases hll : l'' = l'
    · subst hll; simp
    · simp [hll, postMeanTrial, updateRateAll]
  · rw [hm]
  · rw [hm]; simp
  · rw [hm]
    simp only [Function.update_same]
    have : (0 : ℚ) ≤ deflation * st.stepsize_post_mean l' := by
      apply mul_nonneg _ hpM; norm_num [deflation]
    linarith

/-- Witness for C2: with a previous bound of `0` and a recomputed bound
of `-1` every tentative step is rejected, restored exactly, and its step
size becomes `1/2 * 1 + eps > 0`. -/
theorem c2_reject_restores_and_deflates_witness :
    ((betaStep opsC2 ctxW (some 0) stC7 0).beta = stC7.beta ∧
      (betaStep opsC2 ctxW (some 0) stC7 0).rate = stC7.rate ∧
      (betaStep opsC2 ctxW (some 0) stC7 0).stepsize_beta 0
        = deflation * stC7.stepsize_beta 0 + eps ∧
      0 < (betaStep opsC2 ctxW (some 0) stC7 0).stepsize_beta 0) ∧
    ((alphaStep opsC2 ctxW (some 0) stC7 0).alpha = stC7.alpha ∧
      (alphaStep opsC2 ctxW (some 0) stC7 0).rate = stC7.rate ∧
      (alphaStep opsC2 ctxW (some 0) stC7 0).stepsize_alpha 0
        = deflation * stC7.stepsize_alpha 0 + eps ∧
      0 < (alphaStep opsC2 ctxW (some 0) stC7 0).stepsize_alpha 0) ∧
    ((postMeanStep opsC2 ctxW (some 0) stC7 0).post_mean = stC7.post_mean ∧
      (postMeanStep opsC2 ctxW (some 0) stC7 0).rate = stC7.rate ∧
      (postMeanStep opsC2 ctxW (some 0) stC7 0).stepsize_post_mean 0
        = deflation * stC7.stepsize_post_mean 0 + eps ∧
      0 < (postMeanStep opsC2 ctxW (some 0) stC7 0).stepsize_post_mean 0) :=
  c2_reject_restores_and_deflates opsC2 ctxW (some 0) stC7 0 0 0
    (gradBeta ctxW stC7 0) (gradAlpha ctxW stC7 0) rfl
    (by norm_num [rejectTest, lbOf, opsC2, opsC]) rfl
    (by norm_num [rejectTest, lbOf, opsC2, opsC])
    (by norm_num [rejectTest, lbOf, opsC2, opsC])
    (by norm_num [stC7, stW]) (by norm_num [stC7, stW]) (by norm_num [stC7, stW])

/-- Counterexample for C2 as stated: an ELBO that exactly equals the
previous bound "did not increase", but the test `lb < lbound[it-1]` of
line 233 accepts it: with a constant lower bound of `0` and previous
bound `0`, the tentative beta step is kept (`beta` changes from `0` to
`1`) and the step size is not deflated. -/
theorem c2_counterexample_equal_bound_accepted :
    lbOf opsC (betaTrial opsC ctxW stC7 0 (fun _ => 1)) = some 0 ∧
      (betaStep opsC ctxW (some 0) stC7 0).beta 0 0 = 1 ∧
      stC7.beta 0 0 = 0 ∧
      (betaStep opsC ctxW (some 0) stC7 0).stepsize_beta 0 = 1 := by
  refine ⟨rfl, ?_, rfl, ?_⟩ <;>
    norm_num [betaStep, betaTrial, updateRateCol, saferateQ, lbOf, opsC, ctxW,
      stC7, stW, gradBeta, negHessBeta, dotv, mvMul, rejectTest, inflateTest,
      thld, Fin.sum_univ_one]

/-- Claim C3 (amended): in each of the three guarded block loops, a block
whose gradient infinity-norm is below machine epsilon executes `break`
(lines 219-220, 255-256, 296-297), so that block AND every remaining
block of the same kind are skipped for the current outer iteration; all
owned state (parameters, step sizes, rate entries) and the trace are left
unchanged from the break onward. -/
theorem c3_small_gradient_breaks_block_loop (O : Ops T N L K) (ctx : Ctx T N L K)
    (prev : Option ℚ) (st : St T N L K) (n : Fin N) (ns : List (Fin N))
    (l : Fin L) (ls : List (Fin L)) (l' : Fin L) (ls' : List (Fin L))
    (hB : infNorm (gradBeta ctx st n) < eps)
    (hA : infNorm (gradAlpha ctx st l) < eps)
    (hM : infNorm (gradM ctx st l') < eps) :
    betaLoop O ctx prev st (n :: ns) = st ∧
      alphaLoop O ctx prev st (l :: ls) = st ∧
      postMeanLoop O ctx prev st (l' :: ls') = st := by
  refine ⟨?_, ?_, ?_⟩
  · rw [betaLoop, if_pos hB]
  · rw [alphaLoop, if_pos hA]
  · rw [postMeanLoop, if_pos hM]

/-- Witness for C3: a concrete state in which all three block gradients
vanish, so all three loops break immediately. -/
theorem c3_small_gradient_breaks_block_loop_witness :
    betaLoop opsC ctxW (some 0) stW (0 :: []) = stW ∧
      alphaLoop opsC ctxW (some 0) stW (0 :: []) = stW ∧
      postMeanLoop opsC ctxW (some 0) stW (0 :: []) = stW :=
  c3_small_gradient_breaks_block_loop opsC ctxW (some 0) stW 0 [] 0 [] 0 []
    (by norm_num [infNorm, gradBeta, dotv, eps, epsMach, ctxW, stW,
      List.ofFn_succ, List.ofFn_zero, Fin.sum_univ_one])
    (by norm_num [infNorm, gradAlpha, dotv, eps, epsMach, ctxW, stW,
      List.ofFn_succ, List.ofFn_zero, Fin.sum_univ_one])
    (by norm_num [infNorm, gradM, dotv, eps, epsMach, ctxW, stW,
      List.ofFn_succ, List.ofFn_zero, Fin.sum_univ_one])

/-- Two-channel context for the C3 counterexample. -/
def ctx2 : Ctx 1 2 1 1 :=
  { spike := fun _ _ => 1, regressor := fun _ _ => 1,
    prior_mean := fun _ _ => 0, normofalpha := 1 }

/-- Two-channel state: channel 0 already has `rate = spike` (zero
gradient), channel 1 has rate `0` against spike `1` (gradient `1`). -/
def st2 : St 1 2 1 1 :=
  { beta := fun _ _ => 0, alpha := fun _ _ => 0, post_mean := fun _ _ => 0,
    post_cov := fun _ _ _ => 0, prior_cov := fun _ _ _ => 0,
    prior_inv := fun _ _ _ => 0, variance := fun _ => 1, what := fun _ => 1,
    rate := fun _ n => if n = 0 then 1 else 0, stepsize_beta := fun _ => 1,
    stepsize_alpha := fun _ => 1, stepsize_post_mean := fun _ => 1,
    stepsize_w := fun _ => 1 }

/-- Two-channel ops with well-behaved solves and a constant bound. -/
def ops2 : Ops 1 2 1 1 :=
  { solveB := fun _ g => some g, solveA := fun _ g => some g,
    fexp := fun _ => 1, normE := fun _ => 1,
    hinvO := fun _ _ => fun _ _ => 1, lstsqO := fun _ v => v,
    vUpd := fun _ _ => fun _ _ => 1, sqexpO := fun _ v => fun _ _ => v,
    pinvO := fun m => m,
    lbf := fun _ _ _ _ _ _ _ => some 0, gradW := fun _ _ => 1 }

/-- Counterexample for C3 as stated: the gradient of channel 0 is below
machine epsilon, and the loop over channels `[0, 1]` then leaves the
state completely unchanged — channel 1 is NOT updated, although its
gradient is large and its own Newton step (applied directly) would have
changed `beta[:, 1]` from `0` to `1`.  The skip is not confined to the
stationary block: `break` ends the whole loop. -/
theorem c3_counterexample_break_skips_later_blocks :
    infNorm (gradBeta ctx2 st2 0) < eps ∧
      ¬ infNorm (gradBeta ctx2 st2 1) < eps ∧
      betaLoop ops2 ctx2 (some 0) st2 [0, 1] = st2 ∧
      (betaStep ops2 ctx2 (some 0) st2 1).beta 0 1 = 1 ∧
      st2.beta 0 1 = 0 := by
  have h0 : infNorm (gradBeta ctx2 st2 0) < eps := by
    norm_num [infNorm, gradBeta, dotv, eps, epsMach, ctx2, st2,
      List.ofFn_succ, List.ofFn_zero, Fin.sum_univ_one]
  refine ⟨h0, ?_, ?_, ?_, rfl⟩
  · norm_num [infNorm, gradBeta, dotv, eps, epsMach, ctx2, st2,
      List.ofFn_succ, List.ofFn_zero, Fin.sum_univ_one]
  · rw [show ([0, 1] : List (Fin 2)) = 0 :: [1] from rfl, betaLoop, if_pos h0]
  · norm_num [betaStep, betaTrial, updateRateCol, lbOf, ops2, ctx2, st2,
      gradBeta, negHessBeta, dotv, mvMul, rejectTest, inflateTest, thld,
      Fin.sum_univ_one]

/-- Claim C8 (amended): on a rejected hyperparameter step for latent `l`
(the recomputed ELBO is NaN or strictly decreased, lines 365-369) the
previous prior covariance and prior precision for that latent are both
restored from the entry snapshot and the per-latent hyperparameter step
size is halved; on the accept path covariance and precision are
regenerated together from the newly stored hyperparameters.  On the
reject path, however, the scalar hyperparameters are NOT restored: the
stored variance keeps the closed-form update of lines 339-351 and the
stepped lengthscale scalar keeps its new value, so the restored
covariance/precision no longer match the stored hyperparameters. -/
theorem c8_hyper_reject_restores_cov_not_hyper (O : Ops T N L K)
    (ctx : Ctx T N L K) (prev : Option ℚ)
    (lastPC lastPI : Fin L → Fin T → Fin T → ℚ) (st : St T N L K) (l : Fin L)
    (hrej : rejectTest (lbOf O (hyperTrial O ctx st l)) prev = true) :
    (hyperStep O ctx prev lastPC lastPI st l).prior_cov l = lastPC l ∧
      (hyperStep O ctx prev lastPC lastPI st l).prior_inv l = lastPI l ∧
      (hyperStep O ctx prev lastPC lastPI st l).stepsize_w l
        = st.stepsize_w l * (1 / 2) ∧
      (hyperStep O ctx prev lastPC lastPI st l).variance l = newVar ctx st l ∧
      (hyperStep O ctx prev lastPC lastPI st l).what l
        = st.what l + st.stepsize_w l *
            O.gradW { st with variance := Function.update st.variance l (newVar ctx st l) } l ∧
      (hyperTrial O ctx st l).prior_cov l
        = O.sqexpO ((hyperTrial O ctx st l).what l) ((hyperTrial O ctx st l).variance l) ∧
      (hyperTrial O ctx st l).prior_inv l
        = O.pinvO ((hyperTrial O ctx st l).prior_cov l) := by
  have hs : hyperStep O ctx prev lastPC lastPI st l
      = { hyperTrial O ctx st l with
          prior_cov := Function.update (hyperTrial O ctx st l).prior_cov l (lastPC l),
          prior_inv := Function.update (hyperTrial O ctx st l).prior_inv l (lastPI l),
          stepsize_w := Function.update (hyperTrial O ctx st l).stepsize_w l
            ((hyperTrial O ctx st l).stepsize_w l * (1 / 2)) } := by
    simp only [hyperStep, hrej, if_true]
  refine ⟨?_, ?_, ?_, ?_, ?_, ?_, ?_⟩
  · rw [hs]; simp
  · rw [hs]; simp
  · rw [hs]; simp [hyperTrial]
  · rw [hs]; simp [hyperTrial]
  · rw [hs]; simp [hyperTrial]
  · simp [hyperTrial]
  · simp [hyperTrial]

/-- Witness for C8: a concretely rejected hyperparameter step. -/
theorem c8_hyper_reject_restores_cov_not_hyper_witness :
    (hyperStep opsC2 ctxW (some 0) (fun _ _ _ => 5) (fun _ _ _ => 6) stW 0).prior_cov 0
        = (fun (_ : Fin 1) (_ : Fin 1) => (5 : ℚ)) ∧
      (hyperStep opsC2 ctxW (some 0) (fun _ _ _ => 5) (fun _ _ _ => 6) stW 0).prior_inv 0
        = (fun (_ : Fin 1) (_ : Fin 1) => (6 : ℚ)) ∧
      (hyperStep opsC2 ctxW (some 0) (fun _ _ _ => 5) (fun _ _ _ => 6) stW 0).stepsize_w 0
        = stW.stepsize_w 0 * (1 / 2) ∧
      (hyperStep opsC2 ctxW (some 0) (fun _ _ _ => 5) (fun _ _ _ => 6) stW 0).variance 0
        = newVar ctxW stW 0 ∧
      (hyperStep opsC2 ctxW (some 0) (fun _ _ _ => 5) (fun _ _ _ => 6) stW 0).what 0
        = stW.what 0 + stW.stepsize_w 0 *
            opsC2.gradW { stW with variance := Function.update stW.variance 0 (newVar ctxW stW 0) } 0 ∧
      (hyperTrial opsC2 ctxW stW 0).prior_cov 0
        = opsC2.sqexpO ((hyperTrial opsC2 ctxW stW 0).what 0) ((hyperTrial opsC2 ctxW stW 0).variance 0) ∧
      (hyperTrial opsC2 ctxW stW 0).prior_inv 0
        = opsC2.pinvO ((hyperTrial opsC2 ctxW stW 0).prior_cov 0) :=
  c8_hyper_reject_restores_cov_not_hyper opsC2 ctxW (some 0)
    (fun _ _ _ => 5) (fun _ _ _ => 6) stW 0
    (by norm_num [rejectTest, lbOf, opsC2, opsC])

/-- Counterexample for C8 as stated: after a rejected hyperparameter step
the stored prior covariance (rolled back, here the snapshot value `1`)
is no longer the covariance generated from the stored hyperparameters:
the stored variance has been overwritten with the closed-form value `0`,
for which the generator would produce the `0` matrix.  Covariance and
hyperparameters are therefore NOT kept mutually consistent on the reject
path. -/
theorem c8_counterexample_reject_keeps_new_hyper :
    (hyperStep opsC2 ctxW (some 0) (fun _ _ _ => 1) (fun _ _ _ => 1) stW 0).prior_cov 0 0 0 = 1 ∧
      (hyperStep opsC2 ctxW (some 0) (fun _ _ _ => 1) (fun _ _ _ => 1) stW 0).variance 0 = 0 ∧
      stW.variance 0 = 1 ∧
      opsC2.sqexpO
          ((hyperStep opsC2 ctxW (some 0) (fun _ _ _ => 1) (fun _ _ _ => 1) stW 0).what 0)
          ((hyperStep opsC2 ctxW (some 0) (fun _ _ _ => 1) (fun _ _ _ => 1) stW 0).variance 0)
          0 0 = 0 ∧
      (1 : ℚ) ≠ 0 := by
  refine ⟨?_, ?_, rfl, ?_, by norm_num⟩ <;>
    norm_num [hyperStep, hyperTrial, newVar, dotv, mvMul, traceMul, rejectTest,
      lbOf, opsC2, opsC, ctxW, stW, Fin.sum_univ_one]

/-- Folding `max` from `0` never goes below `0`. -/
theorem foldrMax_nonneg (l : List ℚ) : 0 ≤ l.foldr max 0 := by
  induction l with
  | nil => exact le_refl 0
  | cons a l ih => exact le_trans ih (le_max_right a _)

/-- The convergence measure is non-negative. -/
theorem changeOf_nonneg (fixbeta fixalpha fixpostmean fixpostcov : Bool)
    (good st : St T N L K) :
    0 ≤ changeOf fixbeta fixalpha fixpostmean fixpostcov good st := by
  unfold changeOf
  refine le_trans ?_ (le_max_right _ _)
  cases fixpostcov
  · simp only [Bool.false_eq_true, if_false]
    exact foldrMax_nonneg _
  · simp

/-- The loop records at most `k` iterations: the trace the loop appends
has length at most the remaining budget. -/
theorem loopAux_trace_length (O : Ops T N L K) (ctx : Ctx T N L K)
    (fixbeta fixalpha fixpostmean fixpostcov hyper : Bool) (tol : ℚ) :
    ∀ (k it : ℕ) (prev : Option ℚ) (good st : St T N L K),
      (loopAux O ctx fixbeta fixalpha fixpostmean fixpostcov hyper tol
        k it prev good st).1.length ≤ k := by
  intro k
  induction k with
  | zero => intro it prev good st; simp [loopAux]
  | succ k ih =>
    intro it prev good st
    simp only [loopAux]
    split
    · simp
    · simpa using Nat.succ_le_succ (ih (it + 1) _ _ _)

/-- The `converged` flag of the loop is true exactly when the last recorded
convergence measure is below the tolerance. -/
theorem loopAux_converged_iff (O : Ops T N L K) (ctx : Ctx T N L K)
    (fixbeta fixalpha fixpostmean fixpostcov hyper : Bool) (tol : ℚ) :
    ∀ (k it : ℕ) (prev : Option ℚ) (good st : St T N L K),
      ((loopAux O ctx fixbeta fixalpha fixpostmean fixpostcov hyper tol
          k it prev good st).2.2.2 = true
        ↔ ∃ c, (loopAux O ctx fixbeta fixalpha fixpostmean fixpostcov hyper tol
            k it prev good st).2.1.getLast? = some c ∧ c < tol) := by
  intro k
  induction k with
  | zero => intro it prev good st; simp [loopAux]
  | succ k ih =>
    intro it prev good st
    simp only [loopAux]
    split
    · rename_i hch
      simp only [List.getLast?_singleton]
      constructor
      · intro _; exact ⟨_, rfl, hch⟩
      · intro _; trivial
    · rename_i hch
      have ih' := ih (it + 1)
        (lbOf O (outerIter O ctx fixbeta fixalpha fixpostmean fixpostcov
          (hyper && it % 5 == 0) prev st))
        (outerIter O ctx fixbeta fixalpha fixpostmean fixpostcov
          (hyper && it % 5 == 0) prev st)
        (outerIter O ctx fixbeta fixalpha fixpostmean fixpostcov
          (hyper && it % 5 == 0) prev st)
      rcases hr : (loopAux O ctx fixbeta fixalpha fixpostmean fixpostcov hyper tol
          k (it + 1)
          (lbOf O (outerIter O ctx fixbeta fixalpha fixpostmean fixpostcov
            (hyper && it % 5 == 0) prev st))
          (outerIter O ctx fixbeta fixalpha fixpostmean fixpostcov
            (hyper && it % 5 == 0) prev st)
          (outerIter O ctx fixbeta fixalpha fixpostmean fixpostcov
            (hyper && it % 5 == 0) prev st)).2.1 with _ | ⟨c0, cl⟩
      · rw [hr] at ih'
        simp only [List.getLast?_nil] at ih'
        simp only [hr, List.getLast?_singleton]
        constructor
        · intro h
          exact absurd (ih'.mp h) (by simp)
        · rintro ⟨c, hc, hlt⟩
          exact absurd (Option.some.inj hc ▸ hlt) hch
      · rw [hr] at ih'
        simpa only [hr, List.getLast?_cons_cons] using ih'

/-- Every recorded convergence measure is non-negative. -/
theorem loopAux_changes_nonneg (O : Ops T N L K) (ctx : Ctx T N L K)
    (fixbeta fixalpha fixpostmean fixpostcov hyper : Bool) (tol : ℚ) :
    ∀ (k it : ℕ) (prev : Option ℚ) (good st : St T N L K) (c : ℚ),
      c ∈ (loopAux O ctx fixbeta fixalpha fixpostmean fixpostcov hyper tol
        k it prev good st).2.1 → 0 ≤ c := by
  intro k
  induction k with
  | zero => intro it prev good st c hc; simp [loopAux] at hc
  | succ k ih =>
    intro it prev good st c hc
    simp only [loopAux] at hc
    split at hc
    · simp only [List.mem_singleton] at hc
      subst hc
      exact changeOf_nonneg _ _ _ _ _ _
    · simp only [List.mem_cons] at hc
      rcases hc with h | h
      · subst h; exact changeOf_nonneg _ _ _ _ _ _
      · exact ih _ _ _ _ _ h

/-- Claim C9 (amended): every run of the optimizer terminates — the model
loop is a total function whose recorded trace has length at most
`maxiter` (so the loop stops by convergence or by exhausting the
iteration budget), and the returned `converged` flag is true exactly when
the last recorded convergence measure (the maximum absolute change of the
four non-frozen blocks against the last outer-iteration snapshot, as
computed by `changeOf`) fell below the tolerance; non-convergence is
reported non-fatally through the flag, and NO warning is emitted by this
implementation (the warning list is always empty). -/
theorem c9_termination_and_flag (O : Ops T N L K) (ctx : Ctx T N L K)
    (fixbeta fixalpha fixpostmean fixpostcov hyper : Bool)
    (prior_var prior_w : Fin L → ℚ) (a0 : Fin L → Fin N → ℚ)
    (b0 : Fin K → Fin N → ℚ) (m0 : Fin T → Fin L → ℚ)
    (tol : ℚ) (maxiter : ℕ) (hm : 1 ≤ maxiter) :
    (variationalRun O ctx fixbeta fixalpha fixpostmean fixpostcov hyper
        prior_var prior_w a0 b0 m0 tol maxiter).trace.length ≤ maxiter ∧
      (variationalRun O ctx fixbeta fixalpha fixpostmean fixpostcov hyper
        prior_var prior_w a0 b0 m0 tol maxiter).warned = [] ∧
      ((variationalRun O ctx fixbeta fixalpha fixpostmean fixpostcov hyper
          prior_var prior_w a0 b0 m0 tol maxiter).converged = true
        ↔ ∃ c, (variationalRun O ctx fixbeta fixalpha fixpostmean fixpostcov hyper
            prior_var prior_w a0 b0 m0 tol maxiter).changes.getLast? = some c ∧
            c < tol) := by
  refine ⟨?_, rfl, ?_⟩
  · have h := loopAux_trace_length O ctx fixbeta fixalpha fixpostmean fixpostcov
      hyper tol (maxiter - 1) 1
      (lbOf O (initState O ctx prior_var prior_w a0 b0 m0))
      (initState O ctx prior_var prior_w a0 b0 m0)
      (initState O ctx prior_var prior_w a0 b0 m0)
    simp only [variationalRun, List.length_cons]
    omega
  · exact loopAux_converged_iff O ctx fixbeta fixalpha fixpostmean fixpostcov
      hyper tol (maxiter - 1) 1
      (lbOf O (initState O ctx prior_var prior_w a0 b0 m0))
      (initState O ctx prior_var prior_w a0 b0 m0)
      (initState O ctx prior_var prior_w a0 b0 m0)

/-- Witness for C9: a concrete two-iteration-budget run. -/
theorem c9_termination_and_flag_witness :
    (variationalRun opsC ctxW false false false false false (fun _ => 1) (fun _ => 1)
        (fun _ _ => 0) (fun _ _ => 0) (fun _ _ => 0) 0 2).trace.length ≤ 2 ∧
      (variationalRun opsC ctxW false false false false false (fun _ => 1) (fun _ => 1)
        (fun _ _ => 0) (fun _ _ => 0) (fun _ _ => 0) 0 2).warned = [] ∧
      ((variationalRun opsC ctxW false false false false false (fun _ => 1) (fun _ => 1)
          (fun _ _ => 0) (fun _ _ => 0) (fun _ _ => 0) 0 2).converged = true
        ↔ ∃ c, (variationalRun opsC ctxW false false false false false (fun _ => 1) (fun _ => 1)
            (fun _ _ => 0) (fun _ _ => 0) (fun _ _ => 0) 0 2).changes.getLast? = some c ∧
            c < 0) :=
  c9_termination_and_flag opsC ctxW false false false false false (fun _ => 1) (fun _ => 1)
    (fun _ _ => 0) (fun _ _ => 0) (fun _ _ => 0) 0 2 (by norm_num)

/-- Counterexample for C9 as stated: the claim requires non-convergence
to be surfaced with "a warning and a status flag"; `variational` of
src/optimization.py contains no `warnings.warn` call at all, so a run
that exhausts its budget without converging (here: tolerance `0`, which
the non-negative convergence measure can never go below) returns the
`converged = false` flag and emits no warning.  (The `warnings.warn` on
non-convergence exists only in the alternative implementation
src/vb.py, line 299, which returns no flag.) -/
theorem c9_counterexample_no_warning_on_nonconvergence :
    (variationalRun opsC ctxW false false false false false (fun _ => 1) (fun _ => 1)
        (fun _ _ => 0) (fun _ _ => 0) (fun _ _ => 0) 0 2).converged = false ∧
      (variationalRun opsC ctxW false false false false false (fun _ => 1) (fun _ => 1)
        (fun _ _ => 0) (fun _ _ => 0) (fun _ _ => 0) 0 2).warned = [] := by
  refine ⟨?_, rfl⟩
  show (loopAux opsC ctxW false false false false false 0 (2 - 1) 1 _ _ _).2.2.2 = false
  cases hcv : (loopAux opsC ctxW false false false false false 0 (2 - 1) 1
      (lbOf opsC (initState opsC ctxW (fun _ => 1) (fun _ => 1)
        (fun _ _ => 0) (fun _ _ => 0) (fun _ _ => 0)))
      (initState opsC ctxW (fun _ => 1) (fun _ => 1)
        (fun _ _ => 0) (fun _ _ => 0) (fun _ _ => 0))
      (initState opsC ctxW (fun _ => 1) (fun _ => 1)
        (fun _ _ => 0) (fun _ _ => 0) (fun _ _ => 0))).2.2.2
  · rfl
  · exfalso
    obtain ⟨c, hlast, hc⟩ := (loopAux_converged_iff opsC ctxW false false false false
      false 0 (2 - 1) 1
      (lbOf opsC (initState opsC ctxW (fun _ => 1) (fun _ => 1)
        (fun _ _ => 0) (fun _ _ => 0) (fun _ _ => 0)))
      (initState opsC ctxW (fun _ => 1) (fun _ => 1)
        (fun _ _ => 0) (fun _ _ => 0) (fun _ _ => 0))
      (initState opsC ctxW (fun _ => 1) (fun _ => 1)
        (fun _ _ => 0) (fun _ _ => 0) (fun _ _ => 0))).mp hcv
    have hmem : c ∈ (loopAux opsC ctxW false false false false false 0 (2 - 1) 1
        (lbOf opsC (initState opsC ctxW (fun _ => 1) (fun _ => 1)
          (fun _ _ => 0) (fun _ _ => 0) (fun _ _ => 0)))
        (initState opsC ctxW (fun _ => 1) (fun _ => 1)
          (fun _ _ => 0) (fun _ _ => 0) (fun _ _ => 0))
        (initState opsC ctxW (fun _ => 1) (fun _ => 1)
          (fun _ _ => 0) (fun _ _ => 0) (fun _ _ => 0))).2.1 := by
      obtain ⟨hne, hcl⟩ := List.mem_getLast?_eq_getLast (Option.mem_def.mpr hlast)
      rw [hcl]
      exact List.getLast_mem hne
    have hnn := loopAux_changes_nonneg opsC ctxW false false false false false 0
      (2 - 1) 1
      (lbOf opsC (initState opsC ctxW (fun _ => 1) (fun _ => 1)
        (fun _ _ => 0) (fun _ _ => 0) (fun _ _ => 0)))
      (initState opsC ctxW (fun _ => 1) (fun _ => 1)
        (fun _ _ => 0) (fun _ _ => 0) (fun _ _ => 0))
      (initState opsC ctxW (fun _ => 1) (fun _ => 1)
        (fun _ _ => 0) (fun _ _ => 0) (fun _ _ => 0)) c hmem
    linarith

/-! ### Lower-bound preservation through the guarded blocks (for C1) -/

/-- The `lowerbound` value reads exactly the seven listed state fields. -/
theorem lbOf_congr (O : Ops T N L K) (s1 s2 : St T N L K)
    (h1 : s1.beta = s2.beta) (h2 : s1.alpha = s2.alpha)
    (h3 : s1.post_mean = s2.post_mean) (h4 : s1.post_cov = s2.post_cov)
    (h5 : s1.prior_cov = s2.prior_cov) (h6 : s1.prior_inv = s2.prior_inv)
    (h7 : s1.rate = s2.rate) : lbOf O s1 = lbOf O s2 := by
  unfold lbOf
  rw [h1, h2, h3, h4, h5, h6, h7]

/-- A rejected beta step restores a state with the lower bound of the
pre-step state. -/
theorem betaReject_lb (O : Ops T N L K) (ctx : Ctx T N L K) (st : St T N L K)
    (n : Fin N) (delta : Fin K → ℚ) (s : Fin N → ℚ) :
    lbOf O { betaTrial O ctx st n delta with
             stepsize_beta := s,
             beta := fun k m => if m = n then st.beta k n
               else (betaTrial O ctx st n delta).beta k m,
             rate := fun t m => if m = n then st.rate t n
               else (betaTrial O ctx st n delta).rate t m } = lbOf O st := by
  apply lbOf_congr
  · funext k m
    by_cases hmn : m = n
    · subst hmn; simp
    · simp [hmn, betaTrial, updateRateCol]
  · rfl
  · rfl
  · rfl
  · rfl
  · rfl
  · funext t m
    by_cases hmn : m = n
    · subst hmn; simp
    · simp [hmn, betaTrial, updateRateCol]

/-- One beta block keeps the current bound a number at least the previous
outer iteration bound: an accepted step has `lb >= lbound[it-1]` by the
acceptance test, a rejected step restores the pre-step state. -/
theorem betaStep_bound (O : Ops T N L K) (ctx : Ctx T N L K) (p : ℚ)
    (st : St T N L K) (n : Fin N) (v : ℚ)
    (hv : lbOf O st = some v) (hpv : p ≤ v) :
    ∃ w, lbOf O (betaStep O ctx (some p) st n) = some w ∧ p ≤ w := by
  cases hsol : O.solveB (negHessBeta ctx st n) (gradBeta ctx st n) with
  | none =>
    refine ⟨v, ?_, hpv⟩
    simp only [betaStep, hsol]
    exact hv
  | some sol =>
    cases hlb : lbOf O (betaTrial O ctx st n (fun k => st.stepsize_beta n * sol k)) with
    | none =>
      have hrej : rejectTest
          (lbOf O (betaTrial O ctx st n (fun k => st.stepsize_beta n * sol k)))
          (some p) = true := by rw [hlb]; rfl
      have hb : betaStep O ctx (some p) st n
          = { betaTrial O ctx st n (fun k => st.stepsize_beta n * sol k) with
              stepsize_beta := Function.update st.stepsize_beta n
                (deflation * st.stepsize_beta n + eps),
              beta := fun k m => if m = n then st.beta k n
                else (betaTrial O ctx st n (fun k => st.stepsize_beta n * sol k)).beta k m,
              rate := fun t m => if m = n then st.rate t n
                else (betaTrial O ctx st n (fun k => st.stepsize_beta n * sol k)).rate t m } := by
        simp only [betaStep, hsol, hrej, if_true]
      refine ⟨v, ?_, hpv⟩
      rw [hb, betaReject_lb]
      exact hv
    | some u =>
      by_cases hu : u < p
      · have hrej : rejectTest
            (lbOf O (betaTrial O ctx st n (fun k => st.stepsize_beta n * sol k)))
            (some p) = true := by
          rw [hlb]
          simp [rejectTest, hu]
        have hb : betaStep O ctx (some p) st n
            = { betaTrial O ctx st n (fun k => st.stepsize_beta n * sol k) with
                stepsize_beta := Function.update st.stepsize_beta n
                  (deflation * st.stepsize_beta n + eps),
                beta := fun k m => if m = n then st.beta k n
                  else (betaTrial O ctx st n (fun k => st.stepsize_beta n * sol k)).beta k m,
                rate := fun t m => if m = n then st.rate t n
                  else (betaTrial O ctx st n (fun k => st.stepsize_beta n * sol k)).rate t m } := by
          simp only [betaStep, hsol, hrej, if_true]
        refine ⟨v, ?_, hpv⟩
        rw [hb, betaReject_lb]
        exact hv
      · have hacc : rejectTest
            (lbOf O (betaTrial O ctx st n (fun k => st.stepsize_beta n * sol k)))
            (some p) = false := by
          rw [hlb]
          simp [rejectTest, hu]
        have hb : betaStep O ctx (some p) st n
            = (if inflateTest
                (lbOf O (betaTrial O ctx st n (fun k => st.stepsize_beta n * sol k)))
                (some p)
                (dotv (gradBeta ctx st n) (fun k => st.stepsize_beta n * sol k)
                  - 1 / 2 * dotv (fun k => st.stepsize_beta n * sol k)
                      (mvMul (negHessBeta ctx st n) (fun k => st.stepsize_beta n * sol k)))
              then
                { betaTrial O ctx st n (fun k => st.stepsize_beta n * sol k) with
                  stepsize_beta := Function.update st.stepsize_beta n
                    (inflation * st.stepsize_beta n) }
              else betaTrial O ctx st n (fun k => st.stepsize_beta n * sol k)) := by
          simp only [betaStep, hsol, hacc, Bool.false_eq_true, if_false]
        refine ⟨u, ?_, not_lt.mp hu⟩
        rw [hb]
        split
        · exact (lbOf_congr O _ _ rfl rfl rfl rfl rfl rfl rfl).trans hlb
        · exact hlb

/-- The beta loop (with its `break` and `continue` paths) keeps the
current bound a number at least `p`. -/
theorem betaLoop_bound (O : Ops T N L K) (ctx : Ctx T N L K) (p : ℚ) :
    ∀ (ns : List (Fin N)) (st : St T N L K) (v : ℚ),
      lbOf O st = some v → p ≤ v →
      ∃ w, lbOf O (betaLoop O ctx (some p) st ns) = some w ∧ p ≤ w := by
  intro ns
  induction ns with
  | nil => exact fun st v hv hpv => ⟨v, hv, hpv⟩
  | cons n rest ih =>
    intro st v hv hpv
    rw [betaLoop]
    split
    · exact ⟨v, hv, hpv⟩
    · obtain ⟨w, hw, hpw⟩ := betaStep_bound O ctx p st n v hv hpv
      exact ih _ w hw hpw

/-- A rejected alpha step restores a state with the lower bound of the
pre-step state. -/
theorem alphaReject_lb (O : Ops T N L K) (ctx : Ctx T N L K) (st : St T N L K)
    (l : Fin L) (delta : Fin N → ℚ) (s : Fin L → ℚ) :
    lbOf O { alphaTrial O ctx st l delta with
             stepsize_alpha := s,
             alpha := fun l' m => if l' = l then st.alpha l m
               else (alphaTrial O ctx st l delta).alpha l' m,
             rate := st.rate } = lbOf O st := by
  apply lbOf_congr
  · rfl
  · funext l' m
    by_cases hll : l' = l
    · subst hll; simp
    · simp [hll, alphaTrial, updateRateAll]
  · rfl
  · rfl
  · rfl
  · rfl
  · rfl

/-- One alpha block keeps the current bound a number at least `p`. -/
theorem alphaStep_bound (O : Ops T N L K) (ctx : Ctx T N L K) (p : ℚ)
    (st : St T N L K) (l : Fin L) (v : ℚ)
    (hv : lbOf O st = some v) (hpv : p ≤ v) :
    ∃ w, lbOf O (alphaStep O ctx (some p) st l) = some w ∧ p ≤ w := by
  cases hsol : O.solveA (negHessAlpha ctx st l) (gradAlpha ctx st l) with
  | none =>
    refine ⟨v, ?_, hpv⟩
    simp only [alphaStep, hsol]
    exact hv
  | some sol =>
    cases hlb : lbOf O (alphaTrial O ctx st l (fun m => st.stepsize_alpha l * sol m)) with
    | none =>
      have hrej : rejectTest
          (lbOf O (alphaTrial O ctx st l (fun m => st.stepsize_alpha l * sol m)))
          (some p) = true := by rw [hlb]; rfl
      have hb : alphaStep O ctx (some p) st l
          = { alphaTrial O ctx st l (fun m => st.stepsize_alpha l * sol m) with
              stepsize_alpha := Function.update st.stepsize_alpha l
                (deflation * st.stepsize_alpha l + eps),
              alpha := fun l' m => if l' = l then st.alpha l m
                else (alphaTrial O ctx st l (fun m => st.stepsize_alpha l * sol m)).alpha l' m,
              rate := st.rate } := by
        simp only [alphaStep, hsol, hrej, if_true]
      refine ⟨v, ?_, hpv⟩
      rw [hb, alphaReject_lb]
      exact hv
    | some u =>
      by_cases hu : u < p
      · have hrej : rejectTest
            (lbOf O (alphaTrial O ctx st l (fun m => st.stepsize_alpha l * sol m)))
            (some p) = true := by
          rw [hlb]
          simp [rejectTest, hu]
        have hb : alphaStep O ctx (some p) st l
            = { alphaTrial O ctx st l (fun m => st.stepsize_alpha l * sol m) with
                stepsize_alpha := Function.update st.stepsize_alpha l
                  (deflation * st.stepsize_alpha l + eps),
                alpha := fun l' m => if l' = l then st.alpha l m
                  else (alphaTrial O ctx st l (fun m => st.stepsize_alpha l * sol m)).alpha l' m,
                rate := st.rate } := by
          simp only [alphaStep, hsol, hrej, if_true]
        refine ⟨v, ?_, hpv⟩
        rw [hb, alphaReject_lb]
        exact hv
      · have hacc : rejectTest
            (lbOf O (alphaTrial O ctx st l (fun m => st.stepsize_alpha l * sol m)))
            (some p) = false := by
          rw [hlb]
          simp [rejectTest, hu]
        have hb : alphaStep O ctx (some p) st l
            = (if inflateTest
                (lbOf O (alphaTrial O ctx st l (fun m => st.stepsize_alpha l * sol m)))
                (some p)
                (dotv (gradAlpha ctx st l)
                    (fun m => (alphaTrial O ctx st l (fun m => st.stepsize_alpha l * sol m)).alpha l m - st.alpha l m)
                  - 1 / 2 * dotv
                      (fun m => (alphaTrial O ctx st l (fun m => st.stepsize_alpha l * sol m)).alpha l m - st.alpha l m)
                      (mvMul (negHessAlpha ctx st l)
                        (fun m => (alphaTrial O ctx st l (fun m => st.stepsize_alpha l * sol m)).alpha l m - st.alpha l m)))
              then
                { alphaTrial O ctx st l (fun m => st.stepsize_alpha l * sol m) with
                  stepsize_alpha := Function.update st.stepsize_alpha l
                    (inflation * st.stepsize_alpha l) }
              else alphaTrial O ctx st l (fun m => st.stepsize_alpha l * sol m)) := by
          simp only [alphaStep, hsol, hacc, Bool.false_eq_true, if_false]
        refine ⟨u, ?_, not_lt.mp hu⟩
        rw [hb]
        split
        · exact (lbOf_congr O _ _ rfl rfl rfl rfl rfl rfl rfl).trans hlb
        · exact hlb

/-- The alpha loop keeps the current bound a number at least `p`. -/
theorem alphaLoop_bound (O : Ops T N L K) (ctx : Ctx T N L K) (p : ℚ) :
    ∀ (ls : List (Fin L)) (st : St T N L K) (v : ℚ),
      lbOf O st = some v → p ≤ v →
      ∃ w, lbOf O (alphaLoop O ctx (some p) st ls) = some w ∧ p ≤ w := by
  intro ls
  induction ls with
  | nil => exact fun st v hv hpv => ⟨v, hv, hpv⟩
  | cons l rest ih =>
    intro st v hv hpv
    rw [alphaLoop]
    split
    · exact ⟨v, hv, hpv⟩
    · obtain ⟨w, hw, hpw⟩ := alphaStep_bound O ctx p st l v hv hpv
      exact ih _ w hw hpw

/-- A rejected posterior-mean step restores a state with the lower bound
of the pre-step state. -/
theorem postMeanReject_lb (O : Ops T N L K) (ctx : Ctx T N L K) (st : St T N L K)
    (l : Fin L) (delta : Fin T → ℚ) (s : Fin L → ℚ) :
    lbOf O { postMeanTrial O ctx st l delta with
             stepsize_post_mean := s,
             post_mean := fun t l' => if l' = l then st.post_mean t l
               else (postMeanTrial O ctx st l delta).post_mean t l',
             rate := st.rate } = lbOf O st := by
  apply lbOf_congr
  · rfl
  · rfl
  · funext t l'
    by_cases hll : l' = l
    · subst hll; simp
    · simp [hll, postMeanTrial, updateRateAll]
  · rfl
  · rfl
  · rfl
  · rfl

/-- One posterior-mean block keeps the current bound a number at least
`p`. -/
theorem postMeanStep_bound (O : Ops T N L K) (ctx : Ctx T N L K) (p : ℚ)
    (st : St T N L K) (l : Fin L) (v : ℚ)
    (hv : lbOf O st = some v) (hpv : p ≤ v) :
    ∃ w, lbOf O (postMeanStep O ctx (some p) st l) = some w ∧ p ≤ w := by
  cases hlb : lbOf O (postMeanTrial O ctx st l (pmDelta O ctx st l)) with
  | none =>
    have hrej : rejectTest (lbOf O (postMeanTrial O ctx st l (pmDelta O ctx st l)))
        (some p) = true := by rw [hlb]; rfl
    have hb : postMeanStep O ctx (some p) st l
        = { postMeanTrial O ctx st l (pmDelta O ctx st l) with
            stepsize_post_mean := Function.update st.stepsize_post_mean l
              (deflation * st.stepsize_post_mean l + eps),
            post_mean := fun t l' => if l' = l then st.post_mean t l
              else (postMeanTrial O ctx st l (pmDelta O ctx st l)).post_mean t l',
            rate := st.rate } := by
      simp only [postMeanStep, hrej, if_true]
    refine ⟨v, ?_, hpv⟩
    rw [hb, postMeanReject_lb]
    exact hv
  | some u =>
    by_cases hu : u < p
    · have hrej : rejectTest (lbOf O (postMeanTrial O ctx st l (pmDelta O ctx st l)))
          (some p) = true := by
        rw [hlb]
        simp [rejectTest, hu]
      have hb : postMeanStep O ctx (some p) st l
          = { postMeanTrial O ctx st l (pmDelta O ctx st l) with
              stepsize_post_mean := Function.update st.stepsize_post_mean l
                (deflation * st.stepsize_post_mean l + eps),
              post_mean := fun t l' => if l' = l then st.post_mean t l
                else (postMeanTrial O ctx st l (pmDelta O ctx st l)).post_mean t l',
              rate := st.rate } := by
        simp only [postMeanStep, hrej, if_true]
      refine ⟨v, ?_, hpv⟩
      rw [hb, postMeanReject_lb]
      exact hv
    · have hacc : rejectTest (lbOf O (postMeanTrial O ctx st l (pmDelta O ctx st l)))
          (some p) = false := by
        rw [hlb]
        simp [rejectTest, hu]
      have hb : postMeanStep O ctx (some p) st l
          = (if inflateTest (lbOf O (postMeanTrial O ctx st l (pmDelta O ctx st l)))
              (some p)
              (dotv (gradM ctx st l)
                  (fun t => (postMeanTrial O ctx st l (pmDelta O ctx st l)).post_mean t l - st.post_mean t l)
                - 1 / 2 * dotv
                    (fun t => (postMeanTrial O ctx st l (pmDelta O ctx st l)).post_mean t l - st.post_mean t l)
                    (O.lstsqO (O.hinvO (wVec st l) (st.prior_cov l))
                      (fun t => (postMeanTrial O ctx st l (pmDelta O ctx st l)).post_mean t l - st.post_mean t l)))
            then
              { postMeanTrial O ctx st l (pmDelta O ctx st l) with
                stepsize_post_mean := Function.update st.stepsize_post_mean l
                  (inflation * st.stepsize_post_mean l) }
            else postMeanTrial O ctx st l (pmDelta O ctx st l)) := by
        simp only [postMeanStep, hacc, Bool.false_eq_true, if_false]
      refine ⟨u, ?_, not_lt.mp hu⟩
      rw [hb]
      split
      · exact (lbOf_congr O _ _ rfl rfl rfl rfl rfl rfl rfl).trans hlb
      · exact hlb

/-- The posterior-mean loop keeps the current bound a number at least
`p`. -/
theorem postMeanLoop_bound (O : Ops T N L K) (ctx : Ctx T N L K) (p : ℚ) :
    ∀ (ls : List (Fin L)) (st : St T N L K) (v : ℚ),
      lbOf O st = some v → p ≤ v →
      ∃ w, lbOf O (postMeanLoop O ctx (some p) st ls) = some w ∧ p ≤ w := by
  intro ls
  induction ls with
  | nil => exact fun st v hv hpv => ⟨v, hv, hpv⟩
  | cons l rest ih =>
    intro st v hv hpv
    rw [postMeanLoop]
    split
    · exact ⟨v, hv, hpv⟩
    · obtain ⟨w, hw, hpw⟩ := postMeanStep_bound O ctx p st l v hv hpv
      exact ih _ w hw hpw

/-- One hyperparameter block keeps the current bound a number at least
`p`, provided the entry snapshot still holds the current slice for `l`
(which the loop maintains); the prior slices of other latents are untouched. -/
theorem hyperStep_bound (O : Ops T N L K) (ctx : Ctx T N L K) (p : ℚ)
    (lastPC lastPI : Fin L → Fin T → Fin T → ℚ) (st : St T N L K) (l : Fin L)
    (v : ℚ) (hv : lbOf O st = some v) (hpv : p ≤ v)
    (hpc : st.prior_cov l = lastPC l) (hpi : st.prior_inv l = lastPI l) :
    (∃ w, lbOf O (hyperStep O ctx (some p) lastPC lastPI st l) = some w ∧ p ≤ w) ∧
      ∀ l', l' ≠ l →
        (hyperStep O ctx (some p) lastPC lastPI st l).prior_cov l' = st.prior_cov l' ∧
        (hyperStep O ctx (some p) lastPC lastPI st l).prior_inv l' = st.prior_inv l' := by
  have htrialPC : ∀ l', l' ≠ l →
      (hyperTrial O ctx st l).prior_cov l' = st.prior_cov l' := by
    intro l' hll
    simp [hyperTrial, Function.update_noteq hll]
  have htrialPI : ∀ l', l' ≠ l →
      (hyperTrial O ctx st l).prior_inv l' = st.prior_inv l' := by
    intro l' hll
    simp [hyperTrial, Function.update_noteq hll]
  cases hrejc : rejectTest (lbOf O (hyperTrial O ctx st l)) (some p) with
  | true =>
    have hb : hyperStep O ctx (some p) lastPC lastPI st l
        = { hyperTrial O ctx st l with
            prior_cov := Function.update (hyperTrial O ctx st l).prior_cov l (lastPC l),
            prior_inv := Function.update (hyperTrial O ctx st l).prior_inv l (lastPI l),
            stepsize_w := Function.update (hyperTrial O ctx st l).stepsize_w l
              ((hyperTrial O ctx st l).stepsize_w l * (1 / 2)) } := by
      simp only [hyperStep, hrejc, if_true]
    have hcov : Function.update (hyperTrial O ctx st l).prior_cov l (lastPC l)
        = st.prior_cov := by
      funext l'
      by_cases hll : l' = l
      · subst hll; simp [hpc]
      · simp [Function.update_noteq hll, htrialPC l' hll]
    have hinv : Function.update (hyperTrial O ctx st l).prior_inv l (lastPI l)
        = st.prior_inv := by
      funext l'
      by_cases hll : l' = l
      · subst hll; simp [hpi]
      · simp [Function.update_noteq hll, htrialPI l' hll]
    constructor
    · refine ⟨v, ?_, hpv⟩
      rw [hb]
      have heq : lbOf O { hyperTrial O ctx st l with
          prior_cov := Function.update (hyperTrial O ctx st l).prior_cov l (lastPC l),
          prior_inv := Function.update (hyperTrial O ctx st l).prior_inv l (lastPI l),
          stepsize_w := Function.update (hyperTrial O ctx st l).stepsize_w l
            ((hyperTrial O ctx st l).stepsize_w l * (1 / 2)) } = lbOf O st := by
        apply lbOf_congr
        · rfl
        · rfl
        · rfl
        · rfl
        · exact hcov
        · exact hinv
        · rfl
      rw [heq, hv]
    · intro l' hll
      rw [hb]
      constructor
      · show Function.update (hyperTrial O ctx st l).prior_cov l (lastPC l) l'
          = st.prior_cov l'
        rw [hcov]
      · show Function.update (hyperTrial O ctx st l).prior_inv l (lastPI l) l'
          = st.prior_inv l'
        rw [hinv]
  | false =>
    have hb : hyperStep O ctx (some p) lastPC lastPI st l = hyperTrial O ctx st l := by
      simp only [hyperStep, hrejc, Bool.false_eq_true, if_false]
    constructor
    · cases hlb : lbOf O (hyperTrial O ctx st l) with
      | none =>
        exact absurd (hlb ▸ hrejc) (by simp [rejectTest])
      | some u =>
        refine ⟨u, by rw [hb, hlb], ?_⟩
        by_cases hu : u < p
        · have : rejectTest (lbOf O (hyperTrial O ctx st l)) (some p) = true := by
            rw [hlb]
            simp [rejectTest, hu]
          rw [this] at hrejc
          exact absurd hrejc (by simp)
        · exact not_lt.mp hu
    · intro l' hll
      rw [hb]
      exact ⟨htrialPC l' hll, htrialPI l' hll⟩

/-- The hyperparameter loop keeps the current bound a number at least
`p`, given the entry-snapshot consistency that holds at the loop head. -/
theorem hyperLoop_bound (O : Ops T N L K) (ctx : Ctx T N L K) (p : ℚ)
    (lastPC lastPI : Fin L → Fin T → Fin T → ℚ) :
    ∀ (ls : List (Fin L)) (st : St T N L K) (v : ℚ),
      lbOf O st = some v → p ≤ v → ls.Nodup →
      (∀ l ∈ ls, st.prior_cov l = lastPC l ∧ st.prior_inv l = lastPI l) →
      ∃ w, lbOf O (hyperLoop O ctx (some p) lastPC lastPI st ls) = some w ∧ p ≤ w := by
  intro ls
  induction ls with
  | nil => exact fun st v hv hpv _ _ => ⟨v, hv, hpv⟩
  | cons l rest ih =>
    intro st v hv hpv hnd hcons
    have hl : st.prior_cov l = lastPC l ∧ st.prior_inv l = lastPI l :=
      hcons l (List.mem_cons_self l rest)
    obtain ⟨⟨w, hw, hpw⟩, hsl⟩ := hyperStep_bound O ctx p lastPC lastPI st l v hv hpv
      hl.1 hl.2
    rw [hyperLoop]
    apply ih _ w hw hpw (List.Nodup.of_cons hnd)
    intro l' hl'
    have hne : l' ≠ l := by
      intro h
      subst h
      exact (List.nodup_cons.mp hnd).1 hl'
    obtain ⟨h1, h2⟩ := hsl l' hne
    rw [h1, h2]
    exact hcons l' (List.mem_cons_of_mem l hl')

/-- One outer iteration with the posterior-covariance update frozen keeps
the recorded bound a number at least the bound of the previous iteration. -/
theorem outerIter_bound (O : Ops T N L K) (ctx : Ctx T N L K)
    (fixbeta fixalpha fixpostmean hyperOn : Bool) (p : ℚ) (st : St T N L K)
    (v : ℚ) (hv : lbOf O st = some v) (hpv : p ≤ v) :
    ∃ w, lbOf O (outerIter O ctx fixbeta fixalpha fixpostmean true hyperOn
      (some p) st) = some w ∧ p ≤ w := by
  have stepB : ∀ (s : St T N L K) (u : ℚ), lbOf O s = some u → p ≤ u →
      ∃ w, lbOf O (if fixbeta then s else betaLoop O ctx (some p) s (List.finRange N))
        = some w ∧ p ≤ w := by
    intro s u hu hpu
    cases fixbeta
    · simpa using betaLoop_bound O ctx p (List.finRange N) s u hu hpu
    · exact ⟨u, by simpa using hu, hpu⟩
  have stepA : ∀ (s : St T N L K) (u : ℚ), lbOf O s = some u → p ≤ u →
      ∃ w, lbOf O (if fixalpha then s else alphaLoop O ctx (some p) s (List.finRange L))
        = some w ∧ p ≤ w := by
    intro s u hu hpu
    cases fixalpha
    · simpa using alphaLoop_bound O ctx p (List.finRange L) s u hu hpu
    · exact ⟨u, by simpa using hu, hpu⟩
  have stepM : ∀ (s : St T N L K) (u : ℚ), lbOf O s = some u → p ≤ u →
      ∃ w, lbOf O (if fixpostmean then s
          else postMeanLoop O ctx (some p) s (List.finRange L)) = some w ∧ p ≤ w := by
    intro s u hu hpu
    cases fixpostmean
    · simpa using postMeanLoop_bound O ctx p (List.finRange L) s u hu hpu
    · exact ⟨u, by simpa using hu, hpu⟩
  have stepH : ∀ (s : St T N L K) (u : ℚ), lbOf O s = some u → p ≤ u →
      ∃ w, lbOf O (if hyperOn then
          hyperLoop O ctx (some p) s.prior_cov s.prior_inv s (List.finRange L)
        else s) = some w ∧ p ≤ w := by
    intro s u hu hpu
    cases hyperOn
    · exact ⟨u, by simpa using hu, hpu⟩
    · simp only [if_true]
      exact hyperLoop_bound O ctx p s.prior_cov s.prior_inv (List.finRange L) s u hu
        hpu (List.nodup_finRange L) (fun l _ => ⟨rfl, rfl⟩)
  obtain ⟨v1, hv1, hp1⟩ := stepB st v hv hpv
  obtain ⟨v2, hv2, hp2⟩ := stepA _ v1 hv1 hp1
  obtain ⟨v3, hv3, hp3⟩ := stepM _ v2 hv2 hp2
  obtain ⟨w, hw, hpw⟩ := stepH _ v3 hv3 hp3
  refine ⟨w, ?_, hpw⟩
  simp only [outerIter, if_true]
  exact hw

/-- Relation between consecutive recorded bounds: both are numbers (not
NaN) and they do not decrease. -/
def TraceStep (x y : Option ℚ) : Prop :=
  ∃ a b, x = some a ∧ y = some b ∧ a ≤ b

/-- With the posterior-covariance update frozen, each loop pass records a
number at least the previous record, and hands the recursion a state
whose bound equals the record it just made. -/
theorem loopAux_trace_chain (O : Ops T N L K) (ctx : Ctx T N L K)
    (fixbeta fixalpha fixpostmean hyper : Bool) (tol : ℚ) :
    ∀ (k it : ℕ) (p : ℚ) (good st : St T N L K),
      lbOf O st = some p →
      List.Chain' TraceStep (some p ::
        (loopAux O ctx fixbeta fixalpha fixpostmean true hyper tol
          k it (some p) good st).1) := by
  intro k
  induction k with
  | zero => intro it p good st _; simp [loopAux]
  | succ k ih =>
    intro it p good st hst
    obtain ⟨w, hw, hpw⟩ := outerIter_bound O ctx fixbeta fixalpha fixpostmean
      (hyper && it % 5 == 0) p st p hst le_rfl
    simp only [loopAux]
    split
    · rw [hw]
      exact List.chain'_pair.mpr ⟨p, w, rfl, rfl, hpw⟩
    · rw [hw]
      have ih' := ih (it + 1) w
        (outerIter O ctx fixbeta fixalpha fixpostmean true
          (hyper && it % 5 == 0) (some p) st)
        (outerIter O ctx fixbeta fixalpha fixpostmean true
          (hyper && it % 5 == 0) (some p) st) hw
      exact List.chain'_cons.mpr ⟨⟨p, w, rfl, rfl, hpw⟩, ih'⟩

/-- Claim C1 (amended): for every run of the optimizer in which the
posterior-covariance update is frozen (`fixpostcov`), the recorded
lower-bound trace is non-decreasing end to end — including iterations in
which the hyperparameter step runs — provided the initial bound is a
number.  Each guarded block either accepts (then its recomputed bound is
at least the record of the previous iteration) or rolls back exactly; the
hyperparameter step restores covariance and precision on rejection.  The
posterior-covariance update itself (lines 322-333) has no acceptance
test, and when it runs the recorded trace can decrease (see the
counterexample). -/
theorem c1_trace_monotone_when_cov_frozen (O : Ops T N L K) (ctx : Ctx T N L K)
    (fixbeta fixalpha fixpostmean hyper : Bool)
    (prior_var prior_w : Fin L → ℚ) (a0 : Fin L → Fin N → ℚ)
    (b0 : Fin K → Fin N → ℚ) (m0 : Fin T → Fin L → ℚ) (tol : ℚ) (maxiter : ℕ)
    (h0 : ∃ q, lbOf O (initState O ctx prior_var prior_w a0 b0 m0) = some q) :
    List.Chain' TraceStep
      (variationalRun O ctx fixbeta fixalpha fixpostmean true hyper
        prior_var prior_w a0 b0 m0 tol maxiter).trace := by
  obtain ⟨q, hq⟩ := h0
  show List.Chain' TraceStep
    (lbOf O (initState O ctx prior_var prior_w a0 b0 m0) ::
      (loopAux O ctx fixbeta fixalpha fixpostmean true hyper tol (maxiter - 1) 1
        (lbOf O (initState O ctx prior_var prior_w a0 b0 m0))
        (initState O ctx prior_var prior_w a0 b0 m0)
        (initState O ctx prior_var prior_w a0 b0 m0)).1)
  rw [hq]
  exact loopAux_trace_chain O ctx fixbeta fixalpha fixpostmean hyper tol
    (maxiter - 1) 1 q _ _ hq

/-- Witness for C1: a concrete frozen-covariance run whose whole trace is
non-decreasing. -/
theorem c1_trace_monotone_when_cov_frozen_witness :
    List.Chain' TraceStep
      (variationalRun opsC ctxW false false false true false (fun _ => 1)
        (fun _ => 1) (fun _ _ => 0) (fun _ _ => 0) (fun _ _ => 0) 0 3).trace :=
  c1_trace_monotone_when_cov_frozen opsC ctxW false false false false
    (fun _ => 1) (fun _ => 1) (fun _ _ => 0) (fun _ _ => 0) (fun _ _ => 0) 0 3
    ⟨0, rfl⟩

/-- Ops instance for the C1 counterexample: the posterior-covariance
Woodbury update returns the constant matrix `42`, and the lower bound is
`-1` when the posterior covariance holds that matrix and `0` otherwise —
a deterministic function of the state, as the float `lowerbound` is. -/
def opsC1 : Ops 1 1 1 1 :=
  { solveB := fun _ g => some g, solveA := fun _ g => some g,
    fexp := fun _ => 1, normE := fun _ => 1,
    hinvO := fun _ _ => fun _ _ => 1, lstsqO := fun _ v => v,
    vUpd := fun _ _ => fun _ _ => 42, sqexpO := fun _ _ => fun _ _ => 7,
    pinvO := fun m => m,
    lbf := fun _ _ _ pc _ _ _ => if pc 0 0 0 = 42 then some (-1) else some 0,
    gradW := fun _ _ => 1 }

/-- Counterexample for C1 as stated: in a run in which the
posterior-covariance update executes (`fixpostcov = False`), the recorded
trace DECREASES from `0` to `-1`: the guarded blocks all skip (their
gradients vanish), the unguarded covariance update of lines 322-333 then
changes the state, and line 372 records whatever bound results — no
acceptance test protects it, so the rollback protocol does not make the
trace non-decreasing end to end. -/
theorem c1_counterexample_cov_update_decreases_trace :
    (variationalRun opsC1 ctxW false false false false false (fun _ => 1) (fun _ => 1)
        (fun _ _ => 0) (fun _ _ => 0) (fun _ _ => 0) (1 / 1000) 2).trace
      = [some 0, some (-1)] ∧ (-1 : ℚ) < 0 := by
  have hrate : (initState opsC1 ctxW (fun _ => 1) (fun _ => 1) (fun _ _ => 0)
      (fun _ _ => 0) (fun _ _ => 0)).rate = fun _ _ => 1 := by
    funext t m
    norm_num [initState, updateRateAll, saferateQ, opsC1, ctxW, dotv, Fin.sum_univ_one]
  have hpc0 : (initState opsC1 ctxW (fun _ => 1) (fun _ => 1) (fun _ _ => 0)
      (fun _ _ => 0) (fun _ _ => 0)).post_cov = fun _ _ _ => 7 := by
    funext l i j
    norm_num [initState, updateRateAll, opsC1, ctxW]
  have hpi0 : (initState opsC1 ctxW (fun _ => 1) (fun _ => 1) (fun _ _ => 0)
      (fun _ _ => 0) (fun _ _ => 0)).prior_inv = fun _ _ _ => 7 := by
    funext l i j
    norm_num [initState, updateRateAll, opsC1, ctxW]
  have hb0 : lbOf opsC1 (initState opsC1 ctxW (fun _ => 1) (fun _ => 1) (fun _ _ => 0)
      (fun _ _ => 0) (fun _ _ => 0)) = some 0 := by
    simp only [lbOf]
    rw [hpc0]
    norm_num [opsC1]
  have hgradB : gradBeta ctxW (initState opsC1 ctxW (fun _ => 1) (fun _ => 1)
      (fun _ _ => 0) (fun _ _ => 0) (fun _ _ => 0)) 0 = fun _ => 0 := by
    funext k
    simp only [gradBeta, hrate]
    norm_num [dotv, ctxW, Fin.sum_univ_one]
  have hgB : infNorm (gradBeta ctxW (initState opsC1 ctxW (fun _ => 1) (fun _ => 1)
      (fun _ _ => 0) (fun _ _ => 0) (fun _ _ => 0)) 0) < eps := by
    rw [hgradB]
    norm_num [infNorm, eps, epsMach, List.ofFn_succ, List.ofFn_zero]
  have hpm0 : (initState opsC1 ctxW (fun _ => 1) (fun _ => 1) (fun _ _ => 0)
      (fun _ _ => 0) (fun _ _ => 0)).post_mean = fun _ _ => 0 := rfl
  have hal0 : (initState opsC1 ctxW (fun _ => 1) (fun _ => 1) (fun _ _ => 0)
      (fun _ _ => 0) (fun _ _ => 0)).alpha = fun _ _ => 0 := rfl
  have hbe0 : (initState opsC1 ctxW (fun _ => 1) (fun _ => 1) (fun _ _ => 0)
      (fun _ _ => 0) (fun _ _ => 0)).beta = fun _ _ => 0 := rfl
  have hgradA : gradAlpha ctxW (initState opsC1 ctxW (fun _ => 1) (fun _ => 1)
      (fun _ _ => 0) (fun _ _ => 0) (fun _ _ => 0)) 0 = fun _ => 0 := by
    funext n
    simp only [gradAlpha, hrate, hpm0, hal0, hpc0]
    norm_num [dotv, ctxW, Fin.sum_univ_one]
  have hgA : infNorm (gradAlpha ctxW (initState opsC1 ctxW (fun _ => 1) (fun _ => 1)
      (fun _ _ => 0) (fun _ _ => 0) (fun _ _ => 0)) 0) < eps := by
    rw [hgradA]
    norm_num [infNorm, eps, epsMach, List.ofFn_succ, List.ofFn_zero]
  have hgradM : gradM ctxW (initState opsC1 ctxW (fun _ => 1) (fun _ => 1)
      (fun _ _ => 0) (fun _ _ => 0) (fun _ _ => 0)) 0 = fun _ => 0 := by
    funext t
    simp only [gradM, hrate, hpm0, hal0, hpi0]
    norm_num [dotv, ctxW, Fin.sum_univ_one]
  have hgM : infNorm (gradM ctxW (initState opsC1 ctxW (fun _ => 1) (fun _ => 1)
      (fun _ _ => 0) (fun _ _ => 0) (fun _ _ => 0)) 0) < eps := by
    rw [hgradM]
    norm_num [infNorm, eps, epsMach, List.ofFn_succ, List.ofFn_zero]
  have hfr : List.finRange 1 = [0] := rfl
  have h1 : ∀ prev, betaLoop opsC1 ctxW prev (initState opsC1 ctxW (fun _ => 1)
      (fun _ => 1) (fun _ _ => 0) (fun _ _ => 0) (fun _ _ => 0)) (List.finRange 1)
      = initState opsC1 ctxW (fun _ => 1) (fun _ => 1) (fun _ _ => 0)
        (fun _ _ => 0) (fun _ _ => 0) := by
    intro prev
    rw [hfr, betaLoop, if_pos hgB]
  have h2 : ∀ prev, alphaLoop opsC1 ctxW prev (initState opsC1 ctxW (fun _ => 1)
      (fun _ => 1) (fun _ _ => 0) (fun _ _ => 0) (fun _ _ => 0)) (List.finRange 1)
      = initState opsC1 ctxW (fun _ => 1) (fun _ => 1) (fun _ _ => 0)
        (fun _ _ => 0) (fun _ _ => 0) := by
    intro prev
    rw [hfr, alphaLoop, if_pos hgA]
  have h3 : ∀ prev, postMeanLoop opsC1 ctxW prev (initState opsC1 ctxW (fun _ => 1)
      (fun _ => 1) (fun _ _ => 0) (fun _ _ => 0) (fun _ _ => 0)) (List.finRange 1)
      = initState opsC1 ctxW (fun _ => 1) (fun _ => 1) (fun _ _ => 0)
        (fun _ _ => 0) (fun _ _ => 0) := by
    intro prev
    rw [hfr, postMeanLoop, if_pos hgM]
  have h4 : postCovLoop opsC1 ctxW (initState opsC1 ctxW (fun _ => 1) (fun _ => 1)
      (fun _ _ => 0) (fun _ _ => 0) (fun _ _ => 0)) (List.finRange 1)
      = updateRateAll opsC1 ctxW
          { initState opsC1 ctxW (fun _ => 1) (fun _ => 1) (fun _ _ => 0)
              (fun _ _ => 0) (fun _ _ => 0) with
            post_cov := fun l' =>
              if l' = 0 then
                opsC1.vUpd (wVec (initState opsC1 ctxW (fun _ => 1) (fun _ => 1)
                  (fun _ _ => 0) (fun _ _ => 0) (fun _ _ => 0)) 0)
                  ((initState opsC1 ctxW (fun _ => 1) (fun _ => 1) (fun _ _ => 0)
                    (fun _ _ => 0) (fun _ _ => 0)).prior_cov 0)
              else (initState opsC1 ctxW (fun _ => 1) (fun _ => 1) (fun _ _ => 0)
                (fun _ _ => 0) (fun _ _ => 0)).post_cov l' } := by
    rw [hfr, postCovLoop, postCovLoop]
  have houter : ∀ prev, outerIter opsC1 ctxW false false false false false prev
      (initState opsC1 ctxW (fun _ => 1) (fun _ => 1) (fun _ _ => 0)
        (fun _ _ => 0) (fun _ _ => 0))
      = updateRateAll opsC1 ctxW
          { initState opsC1 ctxW (fun _ => 1) (fun _ => 1) (fun _ _ => 0)
              (fun _ _ => 0) (fun _ _ => 0) with
            post_cov := fun l' =>
              if l' = 0 then
                opsC1.vUpd (wVec (initState opsC1 ctxW (fun _ => 1) (fun _ => 1)
                  (fun _ _ => 0) (fun _ _ => 0) (fun _ _ => 0)) 0)
                  ((initState opsC1 ctxW (fun _ => 1) (fun _ => 1) (fun _ _ => 0)
                    (fun _ _ => 0) (fun _ _ => 0)).prior_cov 0)
              else (initState opsC1 ctxW (fun _ => 1) (fun _ => 1) (fun _ _ => 0)
                (fun _ _ => 0) (fun _ _ => 0)).post_cov l' } := by
    intro prev
    simp only [outerIter, Bool.false_eq_true, if_false, h1 prev, h2 prev, h3 prev, h4]
  have hlbX : lbOf opsC1 (updateRateAll opsC1 ctxW
      { initState opsC1 ctxW (fun _ => 1) (fun _ => 1) (fun _ _ => 0)
          (fun _ _ => 0) (fun _ _ => 0) with
        post_cov := fun l' =>
          if l' = 0 then
            opsC1.vUpd (wVec (initState opsC1 ctxW (fun _ => 1) (fun _ => 1)
              (fun _ _ => 0) (fun _ _ => 0) (fun _ _ => 0)) 0)
              ((initState opsC1 ctxW (fun _ => 1) (fun _ => 1) (fun _ _ => 0)
                (fun _ _ => 0) (fun _ _ => 0)).prior_cov 0)
          else (initState opsC1 ctxW (fun _ => 1) (fun _ => 1) (fun _ _ => 0)
            (fun _ _ => 0) (fun _ _ => 0)).post_cov l' }) = some (-1) := by
    simp only [lbOf, updateRateAll]
    norm_num [opsC1]
  have hchX : ¬ changeOf false false false false
      (initState opsC1 ctxW (fun _ => 1) (fun _ => 1) (fun _ _ => 0)
        (fun _ _ => 0) (fun _ _ => 0))
      (updateRateAll opsC1 ctxW
        { initState opsC1 ctxW (fun _ => 1) (fun _ => 1) (fun _ _ => 0)
            (fun _ _ => 0) (fun _ _ => 0) with
          post_cov := fun l' =>
            if l' = 0 then
              opsC1.vUpd (wVec (initState opsC1 ctxW (fun _ => 1) (fun _ => 1)
                (fun _ _ => 0) (fun _ _ => 0) (fun _ _ => 0)) 0)
                ((initState opsC1 ctxW (fun _ => 1) (fun _ => 1) (fun _ _ => 0)
                  (fun _ _ => 0) (fun _ _ => 0)).prior_cov 0)
            else (initState opsC1 ctxW (fun _ => 1) (fun _ => 1) (fun _ _ => 0)
              (fun _ _ => 0) (fun _ _ => 0)).post_cov l' }) < 1 / 1000 := by
    have hvupd : opsC1.vUpd = fun _ _ => fun _ _ => 42 := rfl
    simp only [changeOf, updateRateAll]
    norm_num [maxAbsDiff, maxAbsDiff3, List.ofFn_succ, List.ofFn_zero,
      hpc0, hal0, hbe0, hpm0, hvupd]
  refine ⟨?_, by norm_num⟩
  show (lbOf opsC1 (initState opsC1 ctxW (fun _ => 1) (fun _ => 1) (fun _ _ => 0)
        (fun _ _ => 0) (fun _ _ => 0)) ::
      (loopAux opsC1 ctxW false false false false false (1 / 1000) (0 + 1) 1
        (lbOf opsC1 (initState opsC1 ctxW (fun _ => 1) (fun _ => 1) (fun _ _ => 0)
          (fun _ _ => 0) (fun _ _ => 0)))
        (initState opsC1 ctxW (fun _ => 1) (fun _ => 1) (fun _ _ => 0)
          (fun _ _ => 0) (fun _ _ => 0))
        (initState opsC1 ctxW (fun _ => 1) (fun _ => 1) (fun _ _ => 0)
          (fun _ _ => 0) (fun _ _ => 0))).1)
    = [some 0, some (-1)]
  rw [hb0]
  simp only [loopAux, Bool.false_and, houter, hlbX]
  rw [if_neg hchX]

end VLGP
